import Mathlib

/-!
Shallow embedding of the zproc state server (`zproc/zproc_server.py`):
the Python dict that holds the shared state, the four watcher registries
with their drain-then-reinsert queues, the resolver sweep, the request
handlers and the getattr-based dispatcher loop.  Private ipc endpoints are
modelled as natural numbers minted from a counter (the source mints unique
uuid-derived paths); zmq transport effects are modelled as traces: the
list of replies sent on the router socket and the list of pushes sent to
private endpoints.
-/

set_option maxRecDepth 8000

namespace ZProc

/-- Python values stored in the server state.  The model carries the three
payload shapes the claims need (None, integers, strings); structural
equality coincides with Python equality on this fragment. -/
inductive Val where
  | none : Val
  | int : Int → Val
  | str : String → Val
  deriving DecidableEq

/-- Python errors raised by handlers, dict operations or client predicates. -/
inductive PyErr where
  | keyError : String → PyErr
  | attributeError : String → PyErr
  | typeError : PyErr
  | userError : String → PyErr
  deriving DecidableEq

/-- The server state: a Python dict from string keys to values, kept as an
insertion-ordered association list exactly as CPython keeps dicts. -/
abbrev Dict : Type := List (String × Val)

/-- First binding of a key, as Python dict lookup. -/
def Dict.get? (d : Dict) (k : String) : Option Val :=
  match List.find? (fun p => decide (p.1 = k)) d with
  | Option.some p => Option.some p.2
  | Option.none => Option.none

/-- Python `d.get(k)`: the value at `k`, or None when the key is absent. -/
def Dict.get (d : Dict) (k : String) : Val :=
  (Dict.get? d k).getD Val.none

/-- Python `k in d`. -/
def Dict.hasKey (d : Dict) (k : String) : Bool :=
  List.any d (fun p => decide (p.1 = k))

/-- Python `d[k] = v`: replace the first binding in place, else append. -/
def Dict.set : Dict → String → Val → Dict
  | [], k, v => [(k, v)]
  | p :: rest, k, v =>
    if p.1 = k then (k, v) :: rest else p :: Dict.set rest k v

/-- Python `del d[k]` (the caller checks presence). -/
def Dict.del : Dict → String → Dict
  | [], _ => []
  | p :: rest, k =>
    if p.1 = k then Dict.del rest k else p :: Dict.del rest k

/-- Python dict equality `d1 == d2`: the two dicts agree on every lookup
(order-insensitive, unlike structural equality of the lists). -/
def Dict.beq (a b : Dict) : Bool :=
  List.all a (fun p => decide (Dict.get? b p.1 = Option.some p.2)) &&
    List.all b (fun p => decide (Dict.get? a p.1 = Option.some p.2))

/-- Arguments of a wire request: a key, a value, or a mapping (the
argument of `update`). -/
inductive PyArg where
  | k : String → PyArg
  | v : Val → PyArg
  | m : List (String × Val) → PyArg
  deriving DecidableEq

/-- A wire request: the recognized fields of the pickled message map.
`Option.none` on a field models the field being absent from the message.
The condition watcher's `callable`, `args` and `kwargs` fields are
modelled as one optional closure over the state; `lockReturn` models the
state map the client pushes back on the lock protocol's private channel. -/
structure WireMsg where
  action : Option String
  item : Option String
  args : List PyArg
  key : Option String
  keys : Option (List String)
  value : Option Val
  condFn : Option (Dict → Except PyErr Bool)
  lockReturn : Option Dict

/-- Results of dict operations, as replied to the client. -/
inductive Res where
  | val : Val → Res
  | dict : Dict → Res
  | pair : String × Val → Res
  | pairs : List (String × Val) → Res
  | strs : List String → Res
  | list : List Val → Res
  | nat : Nat → Res
  | bool : Bool → Res
  deriving DecidableEq

/-- A message sent back to a client: an operation result, a private
endpoint, the lock handshake pair, a state attribute object, a marshalled
server-side exception, or (for the `reply` attribute invoked as an
action) the request echoed back. -/
inductive Msg where
  | obj : Res → Msg
  | endpoint : Nat → Msg
  | lockPair : Nat → Dict → Msg
  | attrObj : String → Msg
  | err : PyErr → Msg
  | echo : WireMsg → Msg

/-- Whether a reply is a marshalled error object. -/
def Msg.isErr : Msg → Bool
  | Msg.err _ => true
  | _ => false

/-- One push of a notification message to a private endpoint. -/
structure Push where
  ipc : Nat
  msg : Msg

/-- The tuple `ACTIONS_THAT_MUTATE` of the source: the closed set of
state-dict operation names treated as mutating. -/
def ACTIONS_THAT_MUTATE : List String :=
  ["__setitem__", "__delitem__", "setdefault", "pop", "popitem", "clear",
   "update"]

/-- Dict attribute names the model resolves (`getattr(self.state, name)`
succeeds for these). -/
def dictAttrNames : List String :=
  ["__setitem__", "__delitem__", "setdefault", "pop", "popitem", "clear",
   "update", "get", "copy", "keys", "values", "items", "__len__",
   "__contains__", "__eq__"]

/-- Python `d.update(pairs)` applied left to right. -/
def Dict.updatePairs (d : Dict) (l : List (String × Val)) : Dict :=
  List.foldl (fun acc p => Dict.set acc p.1 p.2) d l

/-- `d.__setitem__(key, x)`. -/
def op_setitem : List PyArg → Dict → Except PyErr (Res × Dict)
  | [PyArg.k key, PyArg.v x], st =>
    Except.ok (Res.val Val.none, Dict.set st key x)
  | _, _ => Except.error PyErr.typeError

/-- `d.__delitem__(key)`: raises KeyError on a missing key. -/
def op_delitem : List PyArg → Dict → Except PyErr (Res × Dict)
  | [PyArg.k key], st =>
    if Dict.hasKey st key then
      Except.ok (Res.val Val.none, Dict.del st key)
    else Except.error (PyErr.keyError key)
  | _, _ => Except.error PyErr.typeError

/-- `d.setdefault(key[, x])`. -/
def op_setdefault : List PyArg → Dict → Except PyErr (Res × Dict)
  | [PyArg.k key, PyArg.v x], st =>
    (match Dict.get? st key with
     | Option.some v => Except.ok (Res.val v, st)
     | Option.none => Except.ok (Res.val x, Dict.set st key x))
  | [PyArg.k key], st =>
    (match Dict.get? st key with
     | Option.some v => Except.ok (Res.val v, st)
     | Option.none =>
       Except.ok (Res.val Val.none, Dict.set st key Val.none))
  | _, _ => Except.error PyErr.typeError

/-- `d.pop(key[, default])`: raises KeyError only without a default. -/
def op_pop : List PyArg → Dict → Except PyErr (Res × Dict)
  | [PyArg.k key], st =>
    (match Dict.get? st key with
     | Option.some v => Except.ok (Res.val v, Dict.del st key)
     | Option.none => Except.error (PyErr.keyError key))
  | [PyArg.k key, PyArg.v dflt], st =>
    (match Dict.get? st key with
     | Option.some v => Except.ok (Res.val v, Dict.del st key)
     | Option.none => Except.ok (Res.val dflt, st))
  | _, _ => Except.error PyErr.typeError

/-- `d.popitem()`: removes the most recently inserted binding (LIFO, as
CPython dicts do); raises KeyError when empty. -/
def op_popitem : List PyArg → Dict → Except PyErr (Res × Dict)
  | [], st =>
    (match List.getLast? st with
     | Option.some p => Except.ok (Res.pair p, List.dropLast st)
     | Option.none => Except.error (PyErr.keyError "popitem"))
  | _, _ => Except.error PyErr.typeError

/-- `d.clear()`. -/
def op_clear : List PyArg → Dict → Except PyErr (Res × Dict)
  | [], _ => Except.ok (Res.val Val.none, [])
  | _, _ => Except.error PyErr.typeError

/-- `d.update([pairs])`. -/
def op_update : List PyArg → Dict → Except PyErr (Res × Dict)
  | [], st => Except.ok (Res.val Val.none, st)
  | [PyArg.m l], st => Except.ok (Res.val Val.none, Dict.updatePairs st l)
  | _, _ => Except.error PyErr.typeError

/-- `d.get(key[, default])`. -/
def op_get : List PyArg → Dict → Except PyErr (Res × Dict)
  | [PyArg.k key], st => Except.ok (Res.val (Dict.get st key), st)
  | [PyArg.k key, PyArg.v dflt], st =>
    Except.ok (Res.val ((Dict.get? st key).getD dflt), st)
  | _, _ => Except.error PyErr.typeError

/-- `d.copy()`. -/
def op_copy : List PyArg → Dict → Except PyErr (Res × Dict)
  | [], st => Except.ok (Res.dict st, st)
  | _, _ => Except.error PyErr.typeError

/-- `d.keys()`. -/
def op_keys : List PyArg → Dict → Except PyErr (Res × Dict)
  | [], st => Except.ok (Res.strs (st.map Prod.fst), st)
  | _, _ => Except.error PyErr.typeError

/-- `d.values()`. -/
def op_values : List PyArg → Dict → Except PyErr (Res × Dict)
  | [], st => Except.ok (Res.list (st.map Prod.snd), st)
  | _, _ => Except.error PyErr.typeError

/-- `d.items()`. -/
def op_items : List PyArg → Dict → Except PyErr (Res × Dict)
  | [], st => Except.ok (Res.pairs st, st)
  | _, _ => Except.error PyErr.typeError

/-- `d.__len__()`. -/
def op_len : List PyArg → Dict → Except PyErr (Res × Dict)
  | [], st => Except.ok (Res.nat st.length, st)
  | _, _ => Except.error PyErr.typeError

/-- `key in d`. -/
def op_contains : List PyArg → Dict → Except PyErr (Res × Dict)
  | [PyArg.k key], st => Except.ok (Res.bool (Dict.hasKey st key), st)
  | _, _ => Except.error PyErr.typeError

/-- `d == other`. -/
def op_dicteq : List PyArg → Dict → Except PyErr (Res × Dict)
  | [PyArg.m l], st => Except.ok (Res.bool (Dict.beq st l), st)
  | _, _ => Except.error PyErr.typeError

/-- `getattr(self.state, attr_name)(*args)`: invoke the named dict
operation; returns the result and the new dict, or the exception Python
raises (unknown attribute, wrong arguments, missing key). -/
def dictCall (it : String) (as : List PyArg) (st : Dict) :
    Except PyErr (Res × Dict) :=
  if it = "__setitem__" then op_setitem as st
  else if it = "__delitem__" then op_delitem as st
  else if it = "setdefault" then op_setdefault as st
  else if it = "pop" then op_pop as st
  else if it = "popitem" then op_popitem as st
  else if it = "clear" then op_clear as st
  else if it = "update" then op_update as st
  else if it = "get" then op_get as st
  else if it = "copy" then op_copy as st
  else if it = "keys" then op_keys as st
  else if it = "values" then op_values as st
  else if it = "items" then op_items as st
  else if it = "__len__" then op_len as st
  else if it = "__contains__" then op_contains as st
  else if it = "__eq__" then op_dicteq as st
  else Except.error (PyErr.attributeError it)

/-- The source's `Queue`: a deque where `put` appendsleft and `drain`
yields from the right, i.e. FIFO order.  The head of `deque` is the
leftmost (most recently put) element. -/
structure Queue (α : Type) where
  deque : List α

/-- A fresh empty queue. -/
def Queue.empty {α : Type} : Queue α := ⟨[]⟩

/-- `Queue.put`: `appendleft`. -/
def Queue.put {α : Type} (q : Queue α) (x : α) : Queue α := ⟨x :: q.deque⟩

/-- The list of entries in the order `drain` yields them (FIFO:
right end of the deque first). -/
def Queue.drainList {α : Type} (q : Queue α) : List α := q.deque.reverse

/-- The queue obtained by `put`ting the elements of `l` in order into an
emptied queue — the re-insertion loop after a drain. -/
def Queue.fromDrain {α : Type} (l : List α) : Queue α :=
  List.foldl Queue.put Queue.empty l

/-- A `defaultdict` of queues: an insertion-ordered association list; a
missing key maps to a fresh default on first access. -/
abbrev DMap (κ α : Type) : Type := List (κ × α)

/-- `defaultdict` access-and-mutate `m[k] ← f m[k]`: modify in place, or
append `(k, f default)` when the key is missing. -/
def DMap.modifyD {κ α : Type} [DecidableEq κ] (m : DMap κ α) (k : κ)
    (dflt : α) (f : α → α) : DMap κ α :=
  if List.any m (fun p => decide (p.1 = k)) then
    List.map (fun p => if p.1 = k then (k, f p.2) else p) m
  else m ++ [(k, f dflt)]

/-- Entry of the condition registry: the private endpoint and the client
predicate (its `args`/`kwargs` baked in); evaluation may raise. -/
abbrev CondEntry : Type := Nat × (Dict → Except PyErr Bool)

/-- Key of the change registry: a tuple of watched keys, or the
`'_any_'` sentinel. -/
inductive CKey where
  | keys : List String → CKey
  | any : CKey
  deriving DecidableEq

/-- Baseline stored with a change watcher: the projection of the watched
keys, or a snapshot of the whole state for an `'_any_'` watcher. -/
inductive CBase where
  | cmp : List Val → CBase
  | snap : Dict → CBase

/-- Python `==` between a stored change baseline and the recomputed one:
lists compare elementwise, dicts by dict equality, and a list never
equals a dict. -/
def CBase.pyEq : CBase → CBase → Bool
  | CBase.cmp a, CBase.cmp b => decide (a = b)
  | CBase.snap a, CBase.snap b => Dict.beq a b
  | _, _ => false

/-- The `ZProcServer` object: the state dict, the four watcher
registries, and the endpoint-minting counter standing in for uuid1. -/
structure ZProcServer where
  state : Dict
  condition_handlers : Queue CondEntry
  equals_handlers : Queue (String × Val × Nat)
  val_change_handlers : DMap String (Queue (Nat × Val))
  change_handlers : DMap CKey (Queue (Nat × CBase))
  nextIpc : Nat

/-- `get_keys_cmp` of the source, on a given state dict:
`[state.get(k) for k in keys]`. -/
def getKeysCmp (st : Dict) (ks : List String) : List Val :=
  List.map (Dict.get st) ks

/-- `ZProcServer.get_keys_cmp`. -/
def ZProcServer.get_keys_cmp (s : ZProcServer) (ks : List String) :
    List Val :=
  getKeysCmp s.state ks

/-- One registry sweep over a drained list: every entry whose `fire`
predicate holds produces its notification push in drain (FIFO) order;
the rest are collected in order for re-insertion. -/
def sweepList {α : Type} (fire : α → Bool) (note : α → Push) :
    List α → List Push × List α
  | [] => ([], [])
  | x :: rest =>
    let r := sweepList fire note rest
    if fire x then (note x :: r.1, r.2) else (r.1, x :: r.2)

/-- The condition-registry sweep over a drained list: a predicate that
raises aborts the loop, discarding both the held-back entries and the
not-yet-visited ones (the queue was already cleared by `drain`). -/
def condSweep (st : Dict) : List CondEntry →
    List Push × Except PyErr (List CondEntry)
  | [] => ([], Except.ok [])
  | e :: rest =>
    match e.2 st with
    | Except.error ex => ([], Except.error ex)
    | Except.ok true =>
      let r := condSweep st rest
      (⟨e.1, Msg.obj (Res.dict st)⟩ :: r.1, r.2)
    | Except.ok false =>
      let r := condSweep st rest
      (r.1,
        match r.2 with
        | Except.ok l => Except.ok (e :: l)
        | Except.error ex => Except.error ex)

/-- Sweep every queue of a registry `defaultdict` in iteration order,
concatenating the pushes. -/
def sweepDMap {κ α : Type} (f : κ → Queue α → List Push × Queue α) :
    DMap κ (Queue α) → List Push × DMap κ (Queue α)
  | [] => ([], [])
  | p :: rest =>
    let r1 := f p.1 p.2
    let r2 := sweepDMap f rest
    (r1.1 ++ r2.1, (p.1, r1.2) :: r2.2)

/-- Outcome of a resolver call: the updated server, the pushes sent, and
the exception that escaped the sweep, if any. -/
structure RSOut where
  server : ZProcServer
  pushes : List Push
  err : Option PyErr

/-- Sweep of one change-registry queue against the current state. -/
def changeStep (st : Dict) (ck : CKey) (q : Queue (Nat × CBase)) :
    List Push × Queue (Nat × CBase) :=
  let new := match ck with
    | CKey.any => CBase.snap st
    | CKey.keys ks => CBase.cmp (getKeysCmp st ks)
  let r := sweepList (fun e => !CBase.pyEq e.2 new)
    (fun e => ⟨e.1, Msg.obj (Res.dict st)⟩) (Queue.drainList q)
  (r.1, Queue.fromDrain r.2)

/-- Sweep of one value-change queue (for its key) against the current
state; a fired watcher is pushed the new value of the key. -/
def valStep (st : Dict) (k : String) (q : Queue (Nat × Val)) :
    List Push × Queue (Nat × Val) :=
  let new := Dict.get st k
  let r := sweepList (fun e => !decide (e.2 = new))
    (fun e => ⟨e.1, Msg.obj (Res.val new)⟩) (Queue.drainList q)
  (r.1, Queue.fromDrain r.2)

/-- `resolve_change_handlers`. -/
def ZProcServer.resolve_change_handlers (s : ZProcServer) : RSOut :=
  let r := sweepDMap (changeStep s.state) s.change_handlers
  ⟨⟨s.state, s.condition_handlers, s.equals_handlers,
    s.val_change_handlers, r.2, s.nextIpc⟩, r.1, Option.none⟩

/-- `resolve_val_change_handlers`. -/
def ZProcServer.resolve_val_change_handlers (s : ZProcServer) : RSOut :=
  let r := sweepDMap (valStep s.state) s.val_change_handlers
  ⟨⟨s.state, s.condition_handlers, s.equals_handlers, r.2,
    s.change_handlers, s.nextIpc⟩, r.1, Option.none⟩

/-- `resolve_equals_handler`: fires (pushing `True`) when the current
value of the entry's key equals the entry's target. -/
def ZProcServer.resolve_equals_handler (s : ZProcServer) : RSOut :=
  let r := sweepList (fun e => decide (Dict.get s.state e.1 = e.2.1))
    (fun e => ⟨e.2.2, Msg.obj (Res.bool true)⟩)
    (Queue.drainList s.equals_handlers)
  ⟨⟨s.state, s.condition_handlers, Queue.fromDrain r.2,
    s.val_change_handlers, s.change_handlers, s.nextIpc⟩, r.1,
    Option.none⟩

/-- The condition queue a sweep leaves behind: the held-back entries
re-inserted, or — when a predicate raised — whatever `drain`'s clearing
left, namely nothing. -/
def condQueueAfter : Except PyErr (List CondEntry) → Queue CondEntry
  | Except.ok back => Queue.fromDrain back
  | Except.error _ => Queue.empty

/-- The exception escaping a condition sweep, if any. -/
def condErrAfter : Except PyErr (List CondEntry) → Option PyErr
  | Except.ok _ => Option.none
  | Except.error ex => Option.some ex

/-- `resolve_condition_handlers`: on a predicate exception the queue is
left as `drain` cleared it — empty — and the exception escapes. -/
def ZProcServer.resolve_condition_handlers (s : ZProcServer) : RSOut :=
  let r := condSweep s.state (Queue.drainList s.condition_handlers)
  ⟨⟨s.state, condQueueAfter r.2, s.equals_handlers,
    s.val_change_handlers, s.change_handlers, s.nextIpc⟩, r.1,
    condErrAfter r.2⟩

/-- `resolve_all_handlers`: change, then condition, then value-change,
then equals; an exception escaping the condition sweep skips the last
two sweeps. -/
def ZProcServer.resolve_all_handlers (s : ZProcServer) : RSOut :=
  let r1 := s.resolve_change_handlers
  let r2 := r1.server.resolve_condition_handlers
  if r2.err.isSome then ⟨r2.server, r1.pushes ++ r2.pushes, r2.err⟩
  else
    let r3 := r2.server.resolve_val_change_handlers
    let r4 := r3.server.resolve_equals_handler
    ⟨r4.server, r1.pushes ++ (r2.pushes ++ (r3.pushes ++ r4.pushes)),
      Option.none⟩

/-- Outcome of a handler method: new server, pushes, replies already
sent on the router socket, the exception that escaped the handler (the
dispatcher marshals it into one more reply), and whether the handler
invoked `resolve_all_handlers`. -/
structure HOut where
  server : ZProcServer
  pushes : List Push
  replies : List (Nat × Msg)
  err : Option PyErr
  resolvedAll : Bool

/-- `send_state`: reply with the state dict. -/
def ZProcServer.send_state (s : ZProcServer) (ident : Nat)
    (_msg : WireMsg) : HOut :=
  ⟨s, [], [(ident, Msg.obj (Res.dict s.state))], Option.none, false⟩

/-- `get_state_callable`: snapshot if the named operation is in
`ACTIONS_THAT_MUTATE`, apply it, reply the result, and invoke the
resolver when the operation was mutating and actually changed the
state. -/
def ZProcServer.get_state_callable (s : ZProcServer) (ident : Nat)
    (msg : WireMsg) : HOut :=
  match msg.item with
  | Option.none => ⟨s, [], [], Option.some (PyErr.keyError "item"), false⟩
  | Option.some it =>
    match dictCall it msg.args s.state with
    | Except.error ex => ⟨s, [], [], Option.some ex, false⟩
    | Except.ok rd =>
      let replies := [(ident, Msg.obj rd.1)]
      if decide (it ∈ ACTIONS_THAT_MUTATE) && !Dict.beq s.state rd.2 then
        let r := ZProcServer.resolve_all_handlers
          ⟨rd.2, s.condition_handlers, s.equals_handlers,
            s.val_change_handlers, s.change_handlers, s.nextIpc⟩
        ⟨r.server, r.pushes, replies, r.err, true⟩
      else
        ⟨⟨rd.2, s.condition_handlers, s.equals_handlers,
          s.val_change_handlers, s.change_handlers, s.nextIpc⟩,
          [], replies, Option.none, false⟩

/-- `get_state_attr`: reply with `getattr(self.state, item)` (the
attribute object itself, not a call). -/
def ZProcServer.get_state_attr (s : ZProcServer) (ident : Nat)
    (msg : WireMsg) : HOut :=
  match msg.item with
  | Option.none => ⟨s, [], [], Option.some (PyErr.keyError "item"), false⟩
  | Option.some a =>
    if a ∈ dictAttrNames then
      ⟨s, [], [(ident, Msg.attrObj a)], Option.none, false⟩
    else ⟨s, [], [], Option.some (PyErr.attributeError a), false⟩

/-- `lock_state`: mint an endpoint, reply `(endpoint, state)`, block for
the client's returned state map, and install it (resolving) when it
differs from the current state. -/
def ZProcServer.lock_state (s : ZProcServer) (ident : Nat)
    (msg : WireMsg) : HOut :=
  let e := s.nextIpc
  let s1 : ZProcServer := ⟨s.state, s.condition_handlers,
    s.equals_handlers, s.val_change_handlers, s.change_handlers,
    s.nextIpc + 1⟩
  let replies := [(ident, Msg.lockPair e s.state)]
  let locked := msg.lockReturn.getD s.state
  if Dict.beq locked s.state then ⟨s1, [], replies, Option.none, false⟩
  else
    let r := ZProcServer.resolve_all_handlers
      ⟨locked, s1.condition_handlers, s1.equals_handlers,
        s1.val_change_handlers, s1.change_handlers, s1.nextIpc⟩
    ⟨r.server, r.pushes, replies, r.err, true⟩

/-- `add_change_handler`: mint and reply the endpoint first, then queue
`(endpoint, baseline)` under the key tuple (or `'_any_'` with a state
snapshot when the key list is empty) and run the change sweep.  A
missing `keys` field raises after the endpoint reply was already sent. -/
def ZProcServer.add_change_handler (s : ZProcServer) (ident : Nat)
    (msg : WireMsg) : HOut :=
  let e := s.nextIpc
  let s1 : ZProcServer := ⟨s.state, s.condition_handlers,
    s.equals_handlers, s.val_change_handlers, s.change_handlers,
    s.nextIpc + 1⟩
  let replies := [(ident, Msg.endpoint e)]
  match msg.keys with
  | Option.none =>
    ⟨s1, [], replies, Option.some (PyErr.keyError "keys"), false⟩
  | Option.some ks =>
    let s2 : ZProcServer :=
      if ks.length ≠ 0 then
        ⟨s1.state, s1.condition_handlers, s1.equals_handlers,
          s1.val_change_handlers,
          DMap.modifyD s1.change_handlers (CKey.keys ks) Queue.empty
            (fun q => Queue.put q (e, CBase.cmp (getKeysCmp s1.state ks))),
          s1.nextIpc⟩
      else
        ⟨s1.state, s1.condition_handlers, s1.equals_handlers,
          s1.val_change_handlers,
          DMap.modifyD s1.change_handlers CKey.any Queue.empty
            (fun q => Queue.put q (e, CBase.snap s1.state)),
          s1.nextIpc⟩
    let r := s2.resolve_change_handlers
    ⟨r.server, r.pushes, replies, r.err, false⟩

/-- `add_val_change_handler`: endpoint reply first; the baseline is the
request's `value` field when present, else the current `state.get(key)`;
then the value-change sweep runs.  A missing `key` field raises after
the reply. -/
def ZProcServer.add_val_change_handler (s : ZProcServer) (ident : Nat)
    (msg : WireMsg) : HOut :=
  let e := s.nextIpc
  let s1 : ZProcServer := ⟨s.state, s.condition_handlers,
    s.equals_handlers, s.val_change_handlers, s.change_handlers,
    s.nextIpc + 1⟩
  let replies := [(ident, Msg.endpoint e)]
  match msg.key with
  | Option.none =>
    ⟨s1, [], replies, Option.some (PyErr.keyError "key"), false⟩
  | Option.some k =>
    let old := match msg.value with
      | Option.some v => v
      | Option.none => Dict.get s1.state k
    let s2 : ZProcServer := ⟨s1.state, s1.condition_handlers,
      s1.equals_handlers,
      DMap.modifyD s1.val_change_handlers k Queue.empty
        (fun q => Queue.put q (e, old)),
      s1.change_handlers, s1.nextIpc⟩
    let r := s2.resolve_val_change_handlers
    ⟨r.server, r.pushes, replies, r.err, false⟩

/-- `add_equals_handler`: endpoint reply first, then queue
`(key, value, endpoint)` and run the equals sweep; a missing `key` or
`value` field raises after the reply. -/
def ZProcServer.add_equals_handler (s : ZProcServer) (ident : Nat)
    (msg : WireMsg) : HOut :=
  let e := s.nextIpc
  let s1 : ZProcServer := ⟨s.state, s.condition_handlers,
    s.equals_handlers, s.val_change_handlers, s.change_handlers,
    s.nextIpc + 1⟩
  let replies := [(ident, Msg.endpoint e)]
  match msg.key with
  | Option.none =>
    ⟨s1, [], replies, Option.some (PyErr.keyError "key"), false⟩
  | Option.some k =>
    match msg.value with
    | Option.none =>
      ⟨s1, [], replies, Option.some (PyErr.keyError "value"), false⟩
    | Option.some v =>
      let s2 : ZProcServer := ⟨s1.state, s1.condition_handlers,
        Queue.put s1.equals_handlers (k, v, e), s1.val_change_handlers,
        s1.change_handlers, s1.nextIpc⟩
      let r := s2.resolve_equals_handler
      ⟨r.server, r.pushes, replies, r.err, false⟩

/-- `add_condition_handler`: endpoint reply first, then queue the
predicate entry and run the condition sweep (whose predicate errors
escape); a missing `callable` field raises after the reply. -/
def ZProcServer.add_condition_handler (s : ZProcServer) (ident : Nat)
    (msg : WireMsg) : HOut :=
  let e := s.nextIpc
  let s1 : ZProcServer := ⟨s.state, s.condition_handlers,
    s.equals_handlers, s.val_change_handlers, s.change_handlers,
    s.nextIpc + 1⟩
  let replies := [(ident, Msg.endpoint e)]
  match msg.condFn with
  | Option.none =>
    ⟨s1, [], replies, Option.some (PyErr.keyError "callable"), false⟩
  | Option.some f =>
    let s2 : ZProcServer := ⟨s1.state,
      Queue.put s1.condition_handlers (e, f), s1.equals_handlers,
      s1.val_change_handlers, s1.change_handlers, s1.nextIpc⟩
    let r := s2.resolve_condition_handlers
    ⟨r.server, r.pushes, replies, r.err, false⟩

/-- The eight action names that are handler methods of the server (the
action table of the spec). -/
def handlerNames : List String :=
  ["send_state", "lock_state", "get_state_callable", "get_state_attr",
   "add_change_handler", "add_val_change_handler", "add_equals_handler",
   "add_condition_handler"]

/-- Non-handler attributes of the server object that `getattr` also
finds: calling any of them with `(ident, msg)` raises (wrong arity,
non-callable value, or an invalid bind for `push`), except `reply`,
which is dispatched separately. -/
def otherAttrNames : List String :=
  ["state", "state_lock_ident", "condition_handlers", "equals_handlers",
   "val_change_handlers", "change_handlers", "ctx", "sock", "wait_req",
   "push", "get_keys_cmp", "resolve_change_handlers",
   "resolve_val_change_handlers", "resolve_equals_handler",
   "resolve_condition_handlers", "resolve_all_handlers"]

/-- Dispatch to the named handler method (the caller established
membership in `handlerNames`). -/
def callHandler (a : String) (s : ZProcServer) (ident : Nat)
    (msg : WireMsg) : HOut :=
  if a = "send_state" then s.send_state ident msg
  else if a = "lock_state" then s.lock_state ident msg
  else if a = "get_state_callable" then s.get_state_callable ident msg
  else if a = "get_state_attr" then s.get_state_attr ident msg
  else if a = "add_change_handler" then s.add_change_handler ident msg
  else if a = "add_val_change_handler" then
    s.add_val_change_handler ident msg
  else if a = "add_equals_handler" then s.add_equals_handler ident msg
  else s.add_condition_handler ident msg

/-- Outcome of one iteration of the `state_server` main loop. -/
structure StepOut where
  server : ZProcServer
  pushes : List Push
  replies : List (Nat × Msg)

/-- The try/except around a handler call: an exception escaping the
handler is marshalled as one more reply to the originator. -/
def wrapOut (ident : Nat) (o : HOut) : StepOut :=
  match o.err with
  | Option.some ex => ⟨o.server, o.pushes, o.replies ++ [(ident, Msg.err ex)]⟩
  | Option.none => ⟨o.server, o.pushes, o.replies⟩

/-- One iteration of the `state_server` loop:
`getattr(server, msg['action'])(ident, msg)` inside a try/except that
marshals any exception into one more reply.  A missing `action` field or
an unknown attribute is an error reply; an action naming the server's
`reply` method echoes the request back as a normal reply; any other
non-handler attribute raises when invoked and so yields an error
reply. -/
def state_server_step (s : ZProcServer) (ident : Nat) (msg : WireMsg) :
    StepOut :=
  match msg.action with
  | Option.none => ⟨s, [], [(ident, Msg.err (PyErr.keyError "action"))]⟩
  | Option.some a =>
    if a ∈ handlerNames then wrapOut ident (callHandler a s ident msg)
    else if a = "reply" then ⟨s, [], [(ident, Msg.echo msg)]⟩
    else if a ∈ otherAttrNames then
      ⟨s, [], [(ident, Msg.err PyErr.typeError)]⟩
    else ⟨s, [], [(ident, Msg.err (PyErr.attributeError a))]⟩

/-- Run a list of requests through the main loop, collecting all pushes. -/
def runSteps (s : ZProcServer) : List (Nat × WireMsg) →
    ZProcServer × List Push
  | [] => (s, [])
  | r :: rest =>
    let o := state_server_step s r.1 r.2
    let t := runSteps o.server rest
    (t.1, o.pushes ++ t.2)

/-- The server state after requests `0..i` of a trace have been served
(the initial state when the trace is exhausted first). -/
def stAt (s : ZProcServer) (ident : Nat) : List WireMsg → Nat → Dict
  | [], _ => s.state
  | m :: _, 0 => (state_server_step s ident m).server.state
  | m :: rest, Nat.succ j =>
    stAt (state_server_step s ident m).server ident rest j

/-- The pushes emitted while serving request `i` of a trace. -/
def pushesAt (s : ZProcServer) (ident : Nat) :
    List WireMsg → Nat → List Push
  | [], _ => []
  | m :: _, 0 => (state_server_step s ident m).pushes
  | m :: rest, Nat.succ j =>
    pushesAt (state_server_step s ident m).server ident rest j

/-- The pushes of a trace addressed to one endpoint. -/
def pushesTo (e : Nat) (ps : List Push) : List Push :=
  List.filter (fun p => decide (p.ipc = e)) ps

/-- A `get_state_callable` request for the named dict operation. -/
def callMsg (it : String) (as : List PyArg) : WireMsg :=
  ⟨Option.some "get_state_callable", Option.some it, as, Option.none,
    Option.none, Option.none, Option.none, Option.none⟩

/-- A bare `send_state` request. -/
def sendStateMsg : WireMsg :=
  ⟨Option.some "send_state", Option.none, [], Option.none, Option.none,
    Option.none, Option.none, Option.none⟩

/-- An `add_val_change_handler` request with an explicit baseline. -/
def valWatchMsg (k : String) (v0 : Val) : WireMsg :=
  ⟨Option.some "add_val_change_handler", Option.none, [], Option.some k,
    Option.none, Option.some v0, Option.none, Option.none⟩

/-- Apply a sequence of named dict operations to a local reference map;
an operation that raises leaves the map unchanged, as it does on the
server. -/
def applyOps : List (String × List PyArg) → Dict → Dict
  | [], d => d
  | o :: rest, d =>
    match dictCall o.1 o.2 d with
    | Except.ok rd => applyOps rest rd.2
    | Except.error _ => applyOps rest d

/-- Run a sequence of `get_state_callable` requests through the loop. -/
def runCalls (s : ZProcServer) (ident : Nat) :
    List (String × List PyArg) → ZProcServer
  | [] => s
  | o :: rest =>
    runCalls (state_server_step s ident (callMsg o.1 o.2)).server ident
      rest

/-- Folding `put` pushes the list, reversed, onto the left of the deque. -/
theorem foldl_put_deque {α : Type} (l : List α) :
    ∀ q : Queue α, (List.foldl Queue.put q l).deque = l.reverse ++ q.deque := by
  induction l with
  | nil => intro q; rfl
  | cons x rest ih =>
    intro q
    simp only [List.foldl_cons, ih, Queue.put, List.reverse_cons,
      List.append_assoc, List.cons_append, List.nil_append]

/-- Re-inserting a drained list reproduces it as the next drain order. -/
theorem fromDrain_drainList {α : Type} (l : List α) :
    Queue.drainList (Queue.fromDrain l) = l := by
  simp [Queue.fromDrain, Queue.drainList, foldl_put_deque, Queue.empty]

/-- Queues with the same deque are the same queue. -/
theorem Queue.eq_of_deque {α : Type} {a b : Queue α}
    (h : a.deque = b.deque) : a = b := by
  cases a; cases b; cases h; rfl

/-- Re-inserting a queue's drain order rebuilds the same queue. -/
theorem fromDrain_of_drainList {α : Type} (q : Queue α) :
    Queue.fromDrain (Queue.drainList q) = q := by
  apply Queue.eq_of_deque
  rw [Queue.fromDrain, foldl_put_deque]
  simp [Queue.drainList, Queue.empty]

/-- `put` appends to the drain (FIFO) order. -/
theorem drainList_put {α : Type} (q : Queue α) (x : α) :
    Queue.drainList (Queue.put q x) = Queue.drainList q ++ [x] := by
  cases q with
  | mk d => simp [Queue.put, Queue.drainList]

/-- The sweep partitions the drained list: fired entries are notified in
drain order, the rest are held back in drain order. -/
theorem sweepList_spec {α : Type} (fire : α → Bool) (note : α → Push)
    (l : List α) :
    sweepList fire note l =
      ((l.filter fire).map note, l.filter (fun x => !fire x)) := by
  induction l with
  | nil => rfl
  | cons x rest ih =>
    by_cases h : fire x = true
    · simp [sweepList, ih, h, List.filter_cons]
    · simp only [Bool.not_eq_true] at h
      simp [sweepList, ih, h, List.filter_cons]

/-- A key's first binding belongs to the dict. -/
theorem Dict.get?_mem {d : Dict} {k : String} {v : Val}
    (h : Dict.get? d k = Option.some v) : (k, v) ∈ d := by
  unfold Dict.get? at h
  cases hf : List.find? (fun p => decide (p.1 = k)) d with
  | none => rw [hf] at h; exact absurd h (by simp)
  | some p =>
    rw [hf] at h
    have hm := List.mem_of_find?_eq_some hf
    have hk := List.find?_some hf
    simp only [decide_eq_true_eq] at hk
    cases h
    cases p with
    | mk a b => cases hk; exact hm

/-- A key with no binding has `get? = none`. -/
theorem Dict.get?_eq_none {d : Dict} {k : String}
    (h : ∀ p ∈ d, p.1 ≠ k) : Dict.get? d k = Option.none := by
  unfold Dict.get?
  rw [List.find?_eq_none.mpr (fun p hp => by simpa using h p hp)]

/-- If `get? d k` is `none` then no binding of `d` has key `k`. -/
theorem Dict.not_mem_of_get?_eq_none {d : Dict} {k : String}
    (h : Dict.get? d k = Option.none) : ∀ p ∈ d, p.1 ≠ k := by
  intro p hp hk
  unfold Dict.get? at h
  cases hf : List.find? (fun p => decide (p.1 = k)) d with
  | some q => rw [hf] at h; exact absurd h (by simp)
  | none =>
    have := List.find?_eq_none.mp hf p hp
    simp [hk] at this

/-- Python-equal dicts agree on every lookup. -/
theorem Dict.get?_eq_of_beq {a b : Dict} (h : Dict.beq a b = true)
    (k : String) : Dict.get? a k = Dict.get? b k := by
  unfold Dict.beq at h
  rw [Bool.and_eq_true] at h
  obtain ⟨h1, h2⟩ := h
  rw [List.all_eq_true] at h1 h2
  cases ha : Dict.get? a k with
  | some v =>
    have hm := Dict.get?_mem ha
    have h1v : Dict.get? b k = Option.some v := by simpa using h1 _ hm
    rw [h1v]
  | none =>
    cases hb : Dict.get? b k with
    | none => rfl
    | some w =>
      have hm := Dict.get?_mem hb
      have := h2 _ hm
      simp only [decide_eq_true_eq] at this
      exact absurd this (by simp [ha])

/-- Python-equal dicts agree on every `get`. -/
theorem Dict.get_eq_of_beq {a b : Dict} (h : Dict.beq a b = true)
    (k : String) : Dict.get a k = Dict.get b k := by
  unfold Dict.get
  rw [Dict.get?_eq_of_beq h]

/-- On a dict with no duplicate keys (every dict Python can build),
Python equality is reflexive. -/
theorem Dict.beq_refl {d : Dict} (h : (d.map Prod.fst).Nodup) :
    Dict.beq d d = true := by
  have key : ∀ p ∈ d, Dict.get? d p.1 = Option.some p.2 := by
    induction d with
    | nil => intro p hp; cases hp
    | cons q rest ih =>
      intro p hp
      simp only [List.map_cons, List.nodup_cons] at h
      rcases List.mem_cons.mp hp with rfl | hmem
      · unfold Dict.get?
        simp [List.find?_cons]
      · have hne : q.1 ≠ p.1 := by
          intro he
          exact h.1 (he ▸ List.mem_map_of_mem Prod.fst hmem)
        unfold Dict.get?
        rw [List.find?_cons]
        simp only [hne, decide_eq_true_eq, if_neg]
        have := ih h.2 p hmem
        unfold Dict.get? at this
        simpa [hne] using this
  unfold Dict.beq
  rw [Bool.and_eq_true]
  constructor
  · rw [List.all_eq_true]
    intro p hp
    simpa using key p hp
  · rw [List.all_eq_true]
    intro p hp
    simpa using key p hp

/-- The change sweep touches only the change registry. -/
theorem resolve_change_fields (s : ZProcServer) :
    s.resolve_change_handlers.server.state = s.state ∧
      s.resolve_change_handlers.server.condition_handlers =
        s.condition_handlers ∧
      s.resolve_change_handlers.server.equals_handlers =
        s.equals_handlers ∧
      s.resolve_change_handlers.server.val_change_handlers =
        s.val_change_handlers ∧
      s.resolve_change_handlers.server.nextIpc = s.nextIpc :=
  ⟨rfl, rfl, rfl, rfl, rfl⟩

/-- The value-change sweep touches only its registry. -/
theorem resolve_val_fields (s : ZProcServer) :
    s.resolve_val_change_handlers.server.state = s.state ∧
      s.resolve_val_change_handlers.server.condition_handlers =
        s.condition_handlers ∧
      s.resolve_val_change_handlers.server.equals_handlers =
        s.equals_handlers ∧
      s.resolve_val_change_handlers.server.change_handlers =
        s.change_handlers ∧
      s.resolve_val_change_handlers.server.nextIpc = s.nextIpc :=
  ⟨rfl, rfl, rfl, rfl, rfl⟩

/-- The equals sweep touches only its registry. -/
theorem resolve_equals_fields (s : ZProcServer) :
    s.resolve_equals_handler.server.state = s.state ∧
      s.resolve_equals_handler.server.condition_handlers =
        s.condition_handlers ∧
      s.resolve_equals_handler.server.val_change_handlers =
        s.val_change_handlers ∧
      s.resolve_equals_handler.server.change_handlers =
        s.change_handlers ∧
      s.resolve_equals_handler.server.nextIpc = s.nextIpc :=
  ⟨rfl, rfl, rfl, rfl, rfl⟩

/-- The condition sweep touches only its registry. -/
theorem resolve_condition_fields (s : ZProcServer) :
    s.resolve_condition_handlers.server.state = s.state ∧
      s.resolve_condition_handlers.server.equals_handlers =
        s.equals_handlers ∧
      s.resolve_condition_handlers.server.val_change_handlers =
        s.val_change_handlers ∧
      s.resolve_condition_handlers.server.change_handlers =
        s.change_handlers ∧
      s.resolve_condition_handlers.server.nextIpc = s.nextIpc :=
  ⟨rfl, rfl, rfl, rfl, rfl⟩

/-- The full resolver never changes the state dict. -/
theorem resolve_all_state (s : ZProcServer) :
    s.resolve_all_handlers.server.state = s.state := by
  unfold ZProcServer.resolve_all_handlers
  dsimp only
  split
  · exact (resolve_condition_fields _).1.trans (resolve_change_fields _).1
  · exact ((resolve_equals_fields _).1.trans
      (resolve_val_fields _).1).trans
      ((resolve_condition_fields _).1.trans (resolve_change_fields _).1)

/-- The full resolver never mints endpoints. -/
theorem resolve_all_nextIpc (s : ZProcServer) :
    s.resolve_all_handlers.server.nextIpc = s.nextIpc := by
  unfold ZProcServer.resolve_all_handlers
  dsimp only
  split
  · exact ((resolve_condition_fields _).2.2.2.2).trans
      (resolve_change_fields _).2.2.2.2
  · exact (((resolve_equals_fields _).2.2.2.2).trans
      (resolve_val_fields _).2.2.2.2).trans
      (((resolve_condition_fields _).2.2.2.2).trans
        (resolve_change_fields _).2.2.2.2)

/-- The wrapped step keeps the handler's server. -/
theorem wrapOut_server (ident : Nat) (o : HOut) :
    (wrapOut ident o).server = o.server := by
  rcases o with ⟨sv, ps, rs, e, b⟩
  cases e <;> rfl

/-- The wrapped step keeps the handler's pushes. -/
theorem wrapOut_pushes (ident : Nat) (o : HOut) :
    (wrapOut ident o).pushes = o.pushes := by
  rcases o with ⟨sv, ps, rs, e, b⟩
  cases e <;> rfl

/-- Dispatch of a `get_state_callable` action. -/
theorem step_action_call (s : ZProcServer) (ident : Nat) (msg : WireMsg)
    (h : msg.action = Option.some "get_state_callable") :
    state_server_step s ident msg =
      wrapOut ident (s.get_state_callable ident msg) := by
  unfold state_server_step
  rw [h]
  dsimp only
  rw [if_pos (by decide : ("get_state_callable" : String) ∈ handlerNames)]
  unfold callHandler
  rw [if_neg (by decide), if_neg (by decide), if_pos rfl]

/-- Dispatch of a `send_state` action. -/
theorem step_action_send (s : ZProcServer) (ident : Nat) (msg : WireMsg)
    (h : msg.action = Option.some "send_state") :
    state_server_step s ident msg =
      wrapOut ident (s.send_state ident msg) := by
  unfold state_server_step
  rw [h]
  dsimp only
  rw [if_pos (by decide : ("send_state" : String) ∈ handlerNames)]
  unfold callHandler
  rw [if_pos rfl]

/-- Dispatch of an `add_val_change_handler` action. -/
theorem step_action_add_val (s : ZProcServer) (ident : Nat)
    (msg : WireMsg)
    (h : msg.action = Option.some "add_val_change_handler") :
    state_server_step s ident msg =
      wrapOut ident (s.add_val_change_handler ident msg) := by
  unfold state_server_step
  rw [h]
  dsimp only
  rw [if_pos (by decide : ("add_val_change_handler" : String) ∈ handlerNames)]
  unfold callHandler
  rw [if_neg (by decide), if_neg (by decide), if_neg (by decide),
    if_neg (by decide), if_neg (by decide), if_pos rfl]

/-- Setting a key makes `get` return the new value. -/
theorem Dict.get_set_self (d : Dict) (k : String) (v : Val) :
    Dict.get (Dict.set d k v) k = v := by
  induction d with
  | nil => simp [Dict.set, Dict.get, Dict.get?, List.find?]
  | cons p rest ih =>
    by_cases h : p.1 = k
    · simp [Dict.set, h, Dict.get, Dict.get?, List.find?]
    · simp only [Dict.set, if_neg h]
      unfold Dict.get Dict.get? at ih ⊢
      rw [List.find?_cons]
      simp only [h, decide_eq_true_eq, if_neg]
      exact ih

/-- One `get_state_callable` request leaves exactly the state the dict
operation produces (unchanged when the operation raised). -/
theorem step_call_state (s : ZProcServer) (ident : Nat) (it : String)
    (as : List PyArg) :
    (state_server_step s ident (callMsg it as)).server.state =
      (match dictCall it as s.state with
       | Except.ok rd => rd.2
       | Except.error _ => s.state) := by
  rw [step_action_call s ident (callMsg it as) rfl, wrapOut_server]
  unfold ZProcServer.get_state_callable
  dsimp only [callMsg]
  cases hd : dictCall it as s.state with
  | error ex => rfl
  | ok rd =>
    dsimp only
    by_cases hb : (decide (it ∈ ACTIONS_THAT_MUTATE) &&
        !Dict.beq s.state rd.2) = true
    · rw [if_pos hb]
      exact resolve_all_state _
    · rw [if_neg hb]

/-- The server state after a sequence of `get_state_callable` requests is
the fold of the dict operations over the initial state. -/
theorem runCalls_state (ident : Nat) :
    ∀ (ops : List (String × List PyArg)) (s : ZProcServer),
      (runCalls s ident ops).state = applyOps ops s.state := by
  intro ops
  induction ops with
  | nil => intro s; rfl
  | cons o rest ih =>
    intro s
    show (runCalls (state_server_step s ident (callMsg o.1 o.2)).server
        ident rest).state = applyOps (o :: rest) s.state
    rw [ih, step_call_state]
    conv_rhs => rw [applyOps]
    cases hd : dictCall o.1 o.2 s.state <;> dsimp only

/-- C1: after any sequence of mutating state-map operations submitted
through `get_state_callable`, the state a subsequent `send_state` replies
with is exactly the map obtained by applying the same operations, in
order, to a local reference map (`applyOps`) started from the same
initial state. -/
theorem c1_send_state_matches_reference (s : ZProcServer) (ident : Nat)
    (ops : List (String × List PyArg))
    (hm : ∀ o ∈ ops, o.1 ∈ ACTIONS_THAT_MUTATE) :
    (state_server_step (runCalls s ident ops) ident sendStateMsg).replies
      = [(ident, Msg.obj (Res.dict (applyOps ops s.state)))] := by
  rw [step_action_send _ ident sendStateMsg rfl]
  unfold wrapOut ZProcServer.send_state
  dsimp only
  rw [runCalls_state]

/-- The empty initial server used by concrete witnesses. -/
def emptyServer (st : Dict) (n : Nat) : ZProcServer :=
  ⟨st, Queue.empty, Queue.empty, [], [], n⟩

/-- Witness for C1 at a concrete run: one `__setitem__` followed by
`send_state`. -/
theorem c1_witness :
    (state_server_step
        (runCalls (emptyServer [] 0) 0
          [("__setitem__", [PyArg.k "x", PyArg.v (Val.int 1)])])
        0 sendStateMsg).replies
      = [(0, Msg.obj (Res.dict [("x", Val.int 1)]))] :=
  c1_send_state_matches_reference (emptyServer [] 0) 0
    [("__setitem__", [PyArg.k "x", PyArg.v (Val.int 1)])] (by decide)

/-- C2: a `get_state_callable` request invokes `resolve_all_handlers`
exactly when the named operation is in the closed mutating set
`ACTIONS_THAT_MUTATE` and the post-operation state is not Python-equal
to the pre-operation snapshot.  (The hypothesis says the state dict has
no duplicate keys, which holds for every dict Python can build.) -/
theorem c2_resolver_iff_mutating_and_changed (s : ZProcServer)
    (ident : Nat) (it : String) (as : List PyArg)
    (hnd : (s.state.map Prod.fst).Nodup) :
    (s.get_state_callable ident (callMsg it as)).resolvedAll =
      (decide (it ∈ ACTIONS_THAT_MUTATE) &&
        !Dict.beq s.state
          (s.get_state_callable ident (callMsg it as)).server.state) := by
  unfold ZProcServer.get_state_callable
  dsimp only [callMsg]
  cases hd : dictCall it as s.state with
  | error ex =>
    dsimp only
    rw [Dict.beq_refl hnd]
    simp
  | ok rd =>
    dsimp only
    by_cases hb : (decide (it ∈ ACTIONS_THAT_MUTATE) &&
        !Dict.beq s.state rd.2) = true
    · rw [if_pos hb]
      dsimp only
      rw [resolve_all_state]
      exact hb.symm
    · rw [if_neg hb]
      dsimp only
      exact (Bool.not_eq_true _ ▸ hb).symm

/-- Witness for C2 at a concrete mutating request that changes the state. -/
theorem c2_witness :
    ((emptyServer [] 0).get_state_callable 0
        (callMsg "__setitem__" [PyArg.k "x", PyArg.v (Val.int 1)])).resolvedAll
      = (decide ("__setitem__" ∈ ACTIONS_THAT_MUTATE) &&
          !Dict.beq []
            ((emptyServer [] 0).get_state_callable 0
              (callMsg "__setitem__"
                [PyArg.k "x", PyArg.v (Val.int 1)])).server.state) :=
  c2_resolver_iff_mutating_and_changed (emptyServer [] 0) 0 "__setitem__"
    [PyArg.k "x", PyArg.v (Val.int 1)] (by decide)

/-- A key that is not in the dict looks up to `none`. -/
theorem Dict.get?_eq_none_of_hasKey_false {d : Dict} {k : String}
    (h : Dict.hasKey d k = false) : Dict.get? d k = Option.none := by
  apply Dict.get?_eq_none
  intro p hp he
  unfold Dict.hasKey at h
  rw [List.any_eq_false] at h
  exact absurd (by simpa using he) (h p hp)

/-- Server holding exactly one equals watcher. -/
def eqWatchServer (st : Dict) (k : String) (v : Val) (i : Nat) :
    ZProcServer :=
  ⟨st, Queue.empty, ⟨[(k, v, i)]⟩, [], [], i + 1⟩

/-- Server holding exactly one value-change watcher. -/
def valWatchServer (st : Dict) (k : String) (base : Val) (i : Nat) :
    ZProcServer :=
  ⟨st, Queue.empty, Queue.empty, [(k, ⟨[(i, base)]⟩)], [], i + 1⟩

/-- C10: at the watcher interface a key that is absent is
indistinguishable from a key bound to None, because all three resolvers
read the state with a None-defaulting `get`: an absent key reads as
None; an equals watcher on `(k, None)` fires while `k` is absent; a
value-change watcher with baseline None does not fire when `k` is set to
None; and the change-watcher baseline projection records None for an
absent watched key. -/
theorem c10_none_absent_conflation (d : Dict) (k : String) (i : Nat)
    (hab : Dict.hasKey d k = false) :
    Dict.get d k = Val.none
    ∧ (eqWatchServer d k Val.none i).resolve_equals_handler.pushes
        = [⟨i, Msg.obj (Res.bool true)⟩]
    ∧ (∀ d0 : Dict,
        (valWatchServer (Dict.set d0 k Val.none) k Val.none
            i).resolve_val_change_handlers.pushes = [])
    ∧ getKeysCmp d [k] = [Val.none] := by
  have hget : Dict.get d k = Val.none := by
    unfold Dict.get
    rw [Dict.get?_eq_none_of_hasKey_false hab]
    rfl
  refine ⟨hget, ?_, ?_, ?_⟩
  · unfold ZProcServer.resolve_equals_handler eqWatchServer
    dsimp only
    rw [sweepList_spec]
    dsimp only [Queue.drainList, List.reverse]
    simp [hget]
  · intro d0
    unfold ZProcServer.resolve_val_change_handlers valWatchServer
    dsimp only [sweepDMap, valStep]
    rw [sweepList_spec]
    simp [Queue.drainList, Dict.get_set_self]
  · unfold getKeysCmp
    simp [hget]

/-- Witness for C10 at a concrete dict and key. -/
theorem c10_witness :
    Dict.get [("a", Val.int 5)] "x" = Val.none
    ∧ (eqWatchServer [("a", Val.int 5)] "x" Val.none
        3).resolve_equals_handler.pushes
        = [⟨3, Msg.obj (Res.bool true)⟩]
    ∧ (valWatchServer (Dict.set [] "x" Val.none) "x" Val.none
        3).resolve_val_change_handlers.pushes = []
    ∧ getKeysCmp [("a", Val.int 5)] ["x"] = [Val.none] :=
  ⟨(c10_none_absent_conflation [("a", Val.int 5)] "x" 3 (by decide)).1,
    (c10_none_absent_conflation [("a", Val.int 5)] "x" 3 (by decide)).2.1,
    (c10_none_absent_conflation [("a", Val.int 5)] "x" 3 (by decide)).2.2.1
      [],
    (c10_none_absent_conflation [("a", Val.int 5)] "x" 3 (by decide)).2.2.2⟩

/-- A request whose action names the server's `reply` method. -/
def replyMsgW : WireMsg :=
  ⟨Option.some "reply", Option.none, [], Option.none, Option.none,
    Option.none, Option.none, Option.none⟩

/-- Counterexample to C7: the action `reply` is not one of the eight
table entries, yet the dispatcher does not reply with a structured
error — `getattr` finds the server's own `reply` method, which echoes
the request back as an ordinary reply. -/
theorem c7_counterexample :
    (state_server_step (emptyServer [] 0) 0 replyMsgW).replies
        = [(0, Msg.echo replyMsgW)]
    ∧ List.all (state_server_step (emptyServer [] 0) 0 replyMsgW).replies
        (fun r => !Msg.isErr r.2) = true := by
  exact ⟨rfl, rfl⟩

/-- C7 amended: the dispatcher looks the action up with `getattr`, not
in a fixed table.  A missing action field, or an action naming no server
attribute, or a non-handler attribute whose call raises, each yield a
single structured-error reply and no state change or push; but the
action `reply` is echoed back as a normal (non-error) reply. -/
theorem c7_amended_dispatch (s : ZProcServer) (ident : Nat)
    (msg : WireMsg) :
    (msg.action = Option.none →
      state_server_step s ident msg =
        ⟨s, [], [(ident, Msg.err (PyErr.keyError "action"))]⟩)
    ∧ (∀ a, msg.action = Option.some a → a ∉ handlerNames →
        a ≠ "reply" →
        (state_server_step s ident msg).server = s ∧
          (state_server_step s ident msg).pushes = [] ∧
          ∃ ex, (state_server_step s ident msg).replies
            = [(ident, Msg.err ex)])
    ∧ (msg.action = Option.some "reply" →
        state_server_step s ident msg =
          ⟨s, [], [(ident, Msg.echo msg)]⟩) := by
  refine ⟨?_, ?_, ?_⟩
  · intro h
    unfold state_server_step
    rw [h]
  · intro a ha hmem hrep
    unfold state_server_step
    rw [ha]
    dsimp only
    rw [if_neg hmem, if_neg hrep]
    by_cases ho : a ∈ otherAttrNames
    · rw [if_pos ho]
      exact ⟨rfl, rfl, PyErr.typeError, rfl⟩
    · rw [if_neg ho]
      exact ⟨rfl, rfl, PyErr.attributeError a, rfl⟩
  · intro h
    unfold state_server_step
    rw [h]
    dsimp only
    rw [if_neg (by decide : ("reply" : String) ∉ handlerNames),
      if_pos rfl]

/-- Witness for C7's amended statement: an action naming no attribute at
all yields one structured-error reply. -/
theorem c7_witness :
    (state_server_step (emptyServer [] 0) 0
        ⟨Option.some "frobnicate", Option.none, [], Option.none,
          Option.none, Option.none, Option.none, Option.none⟩).server
      = emptyServer [] 0
    ∧ (state_server_step (emptyServer [] 0) 0
        ⟨Option.some "frobnicate", Option.none, [], Option.none,
          Option.none, Option.none, Option.none, Option.none⟩).pushes = []
    ∧ ∃ ex, (state_server_step (emptyServer [] 0) 0
        ⟨Option.some "frobnicate", Option.none, [], Option.none,
          Option.none, Option.none, Option.none, Option.none⟩).replies
        = [(0, Msg.err ex)] :=
  (c7_amended_dispatch (emptyServer [] 0) 0
      ⟨Option.some "frobnicate", Option.none, [], Option.none,
        Option.none, Option.none, Option.none, Option.none⟩).2.1
    "frobnicate" rfl (by decide) (by decide)

/-- A server whose condition queue is empty resolves to itself with no
pushes and no error. -/
theorem resolve_condition_empty (s : ZProcServer)
    (h : s.condition_handlers = Queue.empty) :
    s.resolve_condition_handlers =
      ⟨⟨s.state, Queue.empty, s.equals_handlers, s.val_change_handlers,
        s.change_handlers, s.nextIpc⟩, [], Option.none⟩ := by
  unfold ZProcServer.resolve_condition_handlers
  rw [h]
  rfl

/-- A condition predicate that always raises. -/
def failPred : Dict → Except PyErr Bool :=
  fun _ => Except.error (PyErr.userError "boom")

/-- A server holding one raising condition watcher on endpoint 5. -/
def condServerW : ZProcServer :=
  ⟨[], ⟨[(5, failPred)]⟩, Queue.empty, [], [], 6⟩

/-- A mutating request setting key a. -/
def mutA : WireMsg := callMsg "__setitem__" [PyArg.k "a", PyArg.v (Val.int 1)]

/-- A mutating request setting key b. -/
def mutB : WireMsg := callMsg "__setitem__" [PyArg.k "b", PyArg.v (Val.int 2)]

/-- Counterexample to C6: after a mutation whose sweep hits a raising
condition predicate, the watcher does not remain in the condition
queue — the queue is empty, the exception is marshalled to the mutating
client, and the next mutation's sweep raises nothing and pushes
nothing. -/
theorem c6_counterexample :
    (state_server_step condServerW 0 mutA).server.condition_handlers
        = Queue.empty
    ∧ (state_server_step condServerW 0 mutA).replies
        = [(0, Msg.obj (Res.val Val.none)),
           (0, Msg.err (PyErr.userError "boom"))]
    ∧ (state_server_step (state_server_step condServerW 0 mutA).server 0
        mutB).replies = [(0, Msg.obj (Res.val Val.none))]
    ∧ (state_server_step (state_server_step condServerW 0 mutA).server 0
        mutB).pushes = [] := by
  exact ⟨rfl, rfl, rfl, rfl⟩

/-- A sweep aborted by a predicate exception leaves the condition queue
empty (drain cleared it; the re-insertion loop is never reached). -/
theorem resolve_condition_err_empties (s : ZProcServer)
    (h : s.resolve_condition_handlers.err.isSome = true) :
    s.resolve_condition_handlers.server.condition_handlers
      = Queue.empty := by
  unfold ZProcServer.resolve_condition_handlers at h ⊢
  dsimp only at h ⊢
  cases hr : (condSweep s.state (Queue.drainList s.condition_handlers)).2
    with
  | ok back =>
    rw [hr] at h
    exact absurd h (by simp [condErrAfter])
  | error ex => rfl

/-- C6 amended: when a condition predicate raises during a sweep, the
exception escapes to the dispatcher (one marshalled error reply to the
requester that triggered the sweep) and the condition queue is left
empty, so the exception does not recur: the next condition sweep raises
nothing and pushes nothing. -/
theorem c6_amended_failing_predicate_dropped (s : ZProcServer)
    (h : s.resolve_condition_handlers.err.isSome = true) :
    s.resolve_condition_handlers.server.condition_handlers = Queue.empty
    ∧ s.resolve_condition_handlers.server.resolve_condition_handlers.err
        = Option.none
    ∧ s.resolve_condition_handlers.server.resolve_condition_handlers.pushes
        = [] := by
  have hq := resolve_condition_err_empties s h
  refine ⟨hq, ?_, ?_⟩
  · rw [resolve_condition_empty _ hq]
  · rw [resolve_condition_empty _ hq]

/-- Witness for C6's amended statement at the concrete raising server. -/
theorem c6_witness :
    condServerW.resolve_condition_handlers.server.condition_handlers
        = Queue.empty
    ∧ condServerW.resolve_condition_handlers.server.resolve_condition_handlers.err
        = Option.none
    ∧ condServerW.resolve_condition_handlers.server.resolve_condition_handlers.pushes
        = [] :=
  c6_amended_failing_predicate_dropped condServerW rfl

/-- The endpoints a list of pushes is addressed to. -/
def pushIpcs (ps : List Push) : List Nat := List.map Push.ipc ps

/-- The endpoints of all entries across a registry `defaultdict`,
extracting each entry's endpoint with `f`. -/
def dmapIpcs {κ α : Type} (f : α → Nat) (m : DMap κ (Queue α)) :
    List Nat :=
  List.foldr (fun p acc => List.map f p.2.deque ++ acc) [] m

/-- Every drained entry is either notified or held back by a sweep. -/
theorem sweepList_mem {α : Type} (fire : α → Bool) (note : α → Push)
    {l : List α} {x : α} (hx : x ∈ l) :
    note x ∈ (sweepList fire note l).1 ∨ x ∈ (sweepList fire note l).2 := by
  rw [sweepList_spec]
  by_cases h : fire x = true
  · exact Or.inl (List.mem_map_of_mem note (List.mem_filter.mpr ⟨hx, h⟩))
  · exact Or.inr (List.mem_filter.mpr ⟨hx, by simp [h]⟩)

/-- A `defaultdict` put leaves the new entry in the queue at its key. -/
theorem modifyD_put_mem {κ α : Type} [DecidableEq κ]
    (m : DMap κ (Queue α)) (ck : κ) (x : α) :
    ∃ q, (ck, q) ∈ DMap.modifyD m ck Queue.empty (fun q => Queue.put q x)
      ∧ x ∈ q.deque := by
  unfold DMap.modifyD
  by_cases h : List.any m (fun p => decide (p.1 = ck)) = true
  · rw [if_pos h]
    rw [List.any_eq_true] at h
    obtain ⟨p, hp, hpk⟩ := h
    simp only [decide_eq_true_eq] at hpk
    refine ⟨Queue.put p.2 x, ?_, by simp [Queue.put]⟩
    have hmem := List.mem_map_of_mem
      (fun p => if p.1 = ck then (ck, (fun q => Queue.put q x) p.2) else p)
      hp
    simpa [hpk] using hmem
  · rw [if_neg h]
    exact ⟨Queue.put Queue.empty x,
      List.mem_append_right _ (by simp), by simp [Queue.put]⟩

/-- Lifting a per-queue sweep guarantee through `sweepDMap`: an entry of
any registry queue is either notified or still registered afterwards. -/
theorem sweepDMap_entry {κ α : Type}
    (f : κ → Queue α → List Push × Queue α) (g : α → Nat)
    (hf : ∀ k q x, x ∈ q.deque →
      g x ∈ pushIpcs (f k q).1 ∨ x ∈ (f k q).2.deque) :
    ∀ (m : DMap κ (Queue α)) {k : κ} {q : Queue α} {x : α},
      (k, q) ∈ m → x ∈ q.deque →
      g x ∈ pushIpcs (sweepDMap f m).1 ∨
        g x ∈ dmapIpcs g (sweepDMap f m).2 := by
  intro m
  induction m with
  | nil => intro k q x h; cases h
  | cons p rest ih =>
    intro k q x hm hx
    rcases List.mem_cons.mp hm with he | hm'
    · cases he
      rcases hf k q x hx with h | h
      · left
        unfold pushIpcs at h ⊢
        unfold sweepDMap
        dsimp only
        rw [List.map_append]
        exact List.mem_append_left _ h
      · right
        unfold sweepDMap
        dsimp only
        unfold dmapIpcs
        rw [List.foldr_cons]
        exact List.mem_append_left _ (List.mem_map_of_mem g h)
    · rcases ih hm' hx with h | h
      · left
        unfold pushIpcs at h ⊢
        unfold sweepDMap
        dsimp only
        rw [List.map_append]
        exact List.mem_append_right _ h
      · right
        unfold sweepDMap
        dsimp only
        unfold dmapIpcs
        rw [List.foldr_cons]
        refine List.mem_append_right _ ?_
        exact h

/-- Membership carries over from a drained list to the rebuilt queue. -/
theorem mem_fromDrain {α : Type} {l : List α} {x : α} (hx : x ∈ l) :
    x ∈ (Queue.fromDrain l).deque := by
  rw [Queue.fromDrain, foldl_put_deque]
  simp only [Queue.empty, List.append_nil]
  exact List.mem_reverse.mpr hx

/-- A change-registry entry is either notified or retained by its
queue's sweep. -/
theorem changeStep_mem (st : Dict) (ck : CKey) (q : Queue (Nat × CBase))
    {x : Nat × CBase} (hx : x ∈ q.deque) :
    x.1 ∈ pushIpcs (changeStep st ck q).1 ∨
      x ∈ (changeStep st ck q).2.deque := by
  unfold changeStep
  dsimp only
  have hx' : x ∈ Queue.drainList q := List.mem_reverse.mpr hx
  rcases sweepList_mem _ (fun e => ⟨e.1, Msg.obj (Res.dict st)⟩) hx'
    with h | h
  · left
    unfold pushIpcs
    have := List.mem_map_of_mem Push.ipc h
    simpa using this
  · right
    rw [Queue.fromDrain, foldl_put_deque]
    simp only [Queue.empty, List.append_nil]
    exact List.mem_reverse.mpr h

/-- A value-change entry is either notified or retained by its queue's
sweep. -/
theorem valStep_mem (st : Dict) (k : String) (q : Queue (Nat × Val))
    {x : Nat × Val} (hx : x ∈ q.deque) :
    x.1 ∈ pushIpcs (valStep st k q).1 ∨ x ∈ (valStep st k q).2.deque := by
  unfold valStep
  dsimp only
  have hx' : x ∈ Queue.drainList q := List.mem_reverse.mpr hx
  rcases sweepList_mem _
      (fun e => ⟨e.1, Msg.obj (Res.val (Dict.get st k))⟩) hx' with h | h
  · left
    unfold pushIpcs
    have := List.mem_map_of_mem Push.ipc h
    simpa using this
  · right
    rw [Queue.fromDrain, foldl_put_deque]
    simp only [Queue.empty, List.append_nil]
    exact List.mem_reverse.mpr h

/-- In an error-free condition sweep every drained entry is either
notified or held back. -/
theorem condSweep_mem_ok (st : Dict) :
    ∀ (l : List CondEntry) {back : List CondEntry},
      (condSweep st l).2 = Except.ok back →
      ∀ {x : CondEntry}, x ∈ l →
        x.1 ∈ pushIpcs (condSweep st l).1 ∨ x ∈ back := by
  intro l
  induction l with
  | nil => intro back h x hx; cases hx
  | cons e rest ih =>
    intro back h x hx
    rw [condSweep] at h ⊢
    revert h
    cases he : e.2 st with
    | error ex =>
      dsimp only
      intro h
      exact absurd h (by simp)
    | ok b =>
      cases b with
      | true =>
        dsimp only
        intro h
        rcases List.mem_cons.mp hx with rfl | hx'
        · left
          unfold pushIpcs
          exact List.mem_map_of_mem Push.ipc (List.mem_cons_self _ _)
        · rcases ih h hx' with hp | hb
          · left
            unfold pushIpcs at hp ⊢
            exact List.mem_cons_of_mem _ hp
          · exact Or.inr hb
      | false =>
        dsimp only
        revert hx
        cases hr : (condSweep st rest).2 with
        | error ex =>
          dsimp only
          intro hx h
          exact absurd h (by simp)
        | ok l2 =>
          dsimp only
          intro hx h
          injection h with h2
          subst h2
          rcases List.mem_cons.mp hx with rfl | hx'
          · exact Or.inr (List.mem_cons_self _ _)
          · rcases ih hr hx' with hp | hb
            · exact Or.inl hp
            · exact Or.inr (List.mem_cons_of_mem _ hb)

/-- A malformed change-watcher registration: the `keys` field missing. -/
def badChangeMsg : WireMsg :=
  ⟨Option.some "add_change_handler", Option.none, [], Option.none,
    Option.none, Option.none, Option.none, Option.none⟩

/-- Counterexample to C5: a registration request with a missing required
field yields two replies — the endpoint first, then the marshalled
error — with no entry queued, because the handler replies the endpoint
before reading the request's fields. -/
theorem c5_counterexample :
    (state_server_step (emptyServer [] 0) 0 badChangeMsg).replies
        = [(0, Msg.endpoint 0), (0, Msg.err (PyErr.keyError "keys"))]
    ∧ (state_server_step (emptyServer [] 0) 0
        badChangeMsg).server.change_handlers = [] := by
  exact ⟨rfl, rfl⟩

/-- C5 amended: every watcher-registration handler replies the private
endpoint before reading any other request field.  A request missing a
required field therefore gets the endpoint reply and then a marshalled
error reply, and queues nothing; a well-formed request queues its entry
(afterwards the entry has either been notified by the registration sweep
or is still registered). -/
theorem c5_amended_registration (s : ZProcServer) (ident : Nat)
    (msg : WireMsg) :
    ((s.add_change_handler ident msg).replies.head?
        = Option.some (ident, Msg.endpoint s.nextIpc)
      ∧ (s.add_val_change_handler ident msg).replies.head?
        = Option.some (ident, Msg.endpoint s.nextIpc)
      ∧ (s.add_equals_handler ident msg).replies.head?
        = Option.some (ident, Msg.endpoint s.nextIpc)
      ∧ (s.add_condition_handler ident msg).replies.head?
        = Option.some (ident, Msg.endpoint s.nextIpc))
    ∧ (msg.keys = Option.none →
        (s.add_change_handler ident msg).err.isSome = true
        ∧ (s.add_change_handler ident msg).server.change_handlers
            = s.change_handlers)
    ∧ (msg.key = Option.none →
        (s.add_val_change_handler ident msg).err.isSome = true
        ∧ (s.add_val_change_handler ident msg).server.val_change_handlers
            = s.val_change_handlers)
    ∧ (msg.key = Option.none ∨ msg.value = Option.none →
        (s.add_equals_handler ident msg).err.isSome = true
        ∧ (s.add_equals_handler ident msg).server.equals_handlers
            = s.equals_handlers)
    ∧ (msg.condFn = Option.none →
        (s.add_condition_handler ident msg).err.isSome = true
        ∧ (s.add_condition_handler ident msg).server.condition_handlers
            = s.condition_handlers)
    ∧ (msg.keys.isSome = true →
        s.nextIpc ∈ pushIpcs (s.add_change_handler ident msg).pushes
        ∨ s.nextIpc ∈ dmapIpcs Prod.fst
            (s.add_change_handler ident msg).server.change_handlers)
    ∧ (msg.key.isSome = true →
        s.nextIpc ∈ pushIpcs (s.add_val_change_handler ident msg).pushes
        ∨ s.nextIpc ∈ dmapIpcs Prod.fst
            (s.add_val_change_handler ident msg).server.val_change_handlers)
    ∧ (msg.key.isSome = true → msg.value.isSome = true →
        s.nextIpc ∈ pushIpcs (s.add_equals_handler ident msg).pushes
        ∨ s.nextIpc ∈ List.map (fun e => e.2.2)
            (s.add_equals_handler ident msg).server.equals_handlers.deque)
    ∧ (msg.condFn.isSome = true →
        (s.add_condition_handler ident msg).err = Option.none →
        s.nextIpc ∈ pushIpcs (s.add_condition_handler ident msg).pushes
        ∨ s.nextIpc ∈ List.map Prod.fst
            (s.add_condition_handler ident
              msg).server.condition_handlers.deque) := by
  refine ⟨⟨?_, ?_, ?_, ?_⟩, ?_, ?_, ?_, ?_, ?_, ?_, ?_, ?_⟩
  · unfold ZProcServer.add_change_handler
    cases hk : msg.keys <;> rfl
  · unfold ZProcServer.add_val_change_handler
    cases hk : msg.key <;> rfl
  · unfold ZProcServer.add_equals_handler
    cases hk : msg.key
    · rfl
    · cases hv : msg.value <;> rfl
  · unfold ZProcServer.add_condition_handler
    cases hf : msg.condFn <;> rfl
  · intro h
    unfold ZProcServer.add_change_handler
    rw [h]
    exact ⟨rfl, rfl⟩
  · intro h
    unfold ZProcServer.add_val_change_handler
    rw [h]
    exact ⟨rfl, rfl⟩
  · intro h
    unfold ZProcServer.add_equals_handler
    rcases h with h | h
    · rw [h]
      exact ⟨rfl, rfl⟩
    · rw [h]
      cases hk : msg.key <;> exact ⟨rfl, rfl⟩
  · intro h
    unfold ZProcServer.add_condition_handler
    rw [h]
    exact ⟨rfl, rfl⟩
  · intro h
    obtain ⟨ks, hk⟩ := Option.isSome_iff_exists.mp h
    unfold ZProcServer.add_change_handler
    rw [hk]
    dsimp only
    by_cases hl : ks.length ≠ 0
    · rw [if_pos hl]
      unfold ZProcServer.resolve_change_handlers
      dsimp only
      obtain ⟨q, hq, hx⟩ := modifyD_put_mem s.change_handlers
        (CKey.keys ks) (s.nextIpc, CBase.cmp (getKeysCmp s.state ks))
      exact sweepDMap_entry _ Prod.fst
        (fun k q x hx => changeStep_mem s.state k q hx) _ hq hx
    · rw [if_neg hl]
      unfold ZProcServer.resolve_change_handlers
      dsimp only
      obtain ⟨q, hq, hx⟩ := modifyD_put_mem s.change_handlers
        CKey.any (s.nextIpc, CBase.snap s.state)
      exact sweepDMap_entry _ Prod.fst
        (fun k q x hx => changeStep_mem s.state k q hx) _ hq hx
  · intro h
    obtain ⟨k, hk⟩ := Option.isSome_iff_exists.mp h
    unfold ZProcServer.add_val_change_handler
    rw [hk]
    dsimp only
    unfold ZProcServer.resolve_val_change_handlers
    dsimp only
    obtain ⟨q, hq, hx⟩ := modifyD_put_mem s.val_change_handlers k
      (s.nextIpc,
        match msg.value with
        | Option.some v => v
        | Option.none => Dict.get s.state k)
    exact sweepDMap_entry _ Prod.fst
      (fun k q x hx => valStep_mem s.state k q hx) _ hq hx
  · intro h1 h2
    obtain ⟨k, hk⟩ := Option.isSome_iff_exists.mp h1
    obtain ⟨v, hv⟩ := Option.isSome_iff_exists.mp h2
    unfold ZProcServer.add_equals_handler
    rw [hk, hv]
    dsimp only
    unfold ZProcServer.resolve_equals_handler
    dsimp only
    have hx : (k, v, s.nextIpc) ∈
        Queue.drainList (Queue.put s.equals_handlers (k, v, s.nextIpc)) := by
      rw [drainList_put]
      exact List.mem_append_right _ (List.mem_singleton.mpr rfl)
    rcases sweepList_mem
        (fun e => decide (Dict.get s.state e.1 = e.2.1))
        (fun e => ⟨e.2.2, Msg.obj (Res.bool true)⟩) hx with hp | hb
    · left
      unfold pushIpcs
      have := List.mem_map_of_mem Push.ipc hp
      simpa using this
    · right
      exact List.mem_map_of_mem (fun e => e.2.2) (mem_fromDrain hb)
  · intro h1 h2
    obtain ⟨f, hf⟩ := Option.isSome_iff_exists.mp h1
    unfold ZProcServer.add_condition_handler at h2 ⊢
    rw [hf] at h2 ⊢
    dsimp only at h2 ⊢
    unfold ZProcServer.resolve_condition_handlers at h2 ⊢
    dsimp only at h2 ⊢
    revert h2
    cases hr : (condSweep s.state
        (Queue.drainList
          (Queue.put s.condition_handlers (s.nextIpc, f)))).2 with
    | error ex =>
      intro h2
      exact absurd h2 (by simp [condErrAfter])
    | ok back =>
      intro _
      have hx : ((s.nextIpc, f) : CondEntry) ∈
          Queue.drainList (Queue.put s.condition_handlers (s.nextIpc, f)) := by
        rw [drainList_put]
        exact List.mem_append_right _ (List.mem_singleton.mpr rfl)
      rcases condSweep_mem_ok s.state _ hr hx with hp | hb
      · exact Or.inl hp
      · right
        exact List.mem_map_of_mem Prod.fst (mem_fromDrain hb)

/-- Witness for C5's amended statement: a well-formed and a malformed
change registration at a concrete server. -/
theorem c5_witness :
    (((emptyServer [] 0).add_change_handler 0 badChangeMsg).err.isSome
        = true
      ∧ ((emptyServer [] 0).add_change_handler 0
          badChangeMsg).server.change_handlers = [])
    ∧ (0 ∈ pushIpcs
        ((emptyServer [] 0).add_change_handler 0
          ⟨Option.some "add_change_handler", Option.none, [],
            Option.none, Option.some ["x"], Option.none, Option.none,
            Option.none⟩).pushes
      ∨ 0 ∈ dmapIpcs Prod.fst
        ((emptyServer [] 0).add_change_handler 0
          ⟨Option.some "add_change_handler", Option.none, [],
            Option.none, Option.some ["x"], Option.none, Option.none,
            Option.none⟩).server.change_handlers) :=
  ⟨(c5_amended_registration (emptyServer [] 0) 0 badChangeMsg).2.1 rfl,
    (c5_amended_registration (emptyServer [] 0) 0
        ⟨Option.some "add_change_handler", Option.none, [], Option.none,
          Option.some ["x"], Option.none, Option.none,
          Option.none⟩).2.2.2.2.2.1 rfl⟩

/-- The outcome of evaluating a condition predicate, when it does not
raise. -/
def condFire (st : Dict) (e : CondEntry) : Option Bool :=
  match e.2 st with
  | Except.ok b => Option.some b
  | Except.error _ => Option.none

/-- C9: an error-free `resolve_all_handlers` sweeps the registries in
the fixed order change, condition, value-change, equals (its push trace
is the concatenation of the four registry traces in that order); within
a registry the sweep notifies fired entries in drain (FIFO) order and
holds the rest back in drain order; re-inserting held-back entries
preserves that order for the next sweep; and `put` appends at the FIFO
tail. -/
theorem c9_fixed_order_fifo (s : ZProcServer) :
    (s.resolve_all_handlers.err = Option.none →
      s.resolve_all_handlers.pushes =
        s.resolve_change_handlers.pushes ++
          (s.resolve_change_handlers.server.resolve_condition_handlers.pushes
            ++
            (s.resolve_change_handlers.server.resolve_condition_handlers.server.resolve_val_change_handlers.pushes
              ++
              s.resolve_change_handlers.server.resolve_condition_handlers.server.resolve_val_change_handlers.server.resolve_equals_handler.pushes)))
    ∧ (∀ (α : Type) (fire : α → Bool) (note : α → Push) (l : List α),
        sweepList fire note l =
          ((l.filter fire).map note, l.filter (fun x => !fire x)))
    ∧ (∀ (α : Type) (l : List α),
        Queue.drainList (Queue.fromDrain l) = l)
    ∧ (∀ (α : Type) (q : Queue α) (x : α),
        Queue.drainList (Queue.put q x) = Queue.drainList q ++ [x])
    ∧ (∀ (st : Dict) (l : List CondEntry),
        (∀ e ∈ l, (condFire st e).isSome = true) →
        condSweep st l =
          ((l.filter (fun e => decide (condFire st e = Option.some true))).map
              (fun e => ⟨e.1, Msg.obj (Res.dict st)⟩),
            Except.ok
              (l.filter
                (fun e => decide (condFire st e = Option.some false))))) := by
  refine ⟨?_, ?_, ?_, ?_, ?_⟩
  · intro h
    unfold ZProcServer.resolve_all_handlers at h ⊢
    dsimp only at h ⊢
    by_cases hb :
        s.resolve_change_handlers.server.resolve_condition_handlers.err.isSome
        = true
    · rw [if_pos hb] at h
      dsimp only at h
      rw [h] at hb
      exact absurd hb (by simp)
    · rw [if_neg hb]
  · intro α fire note l
    exact sweepList_spec fire note l
  · intro α l
    exact fromDrain_drainList l
  · intro α q x
    exact drainList_put q x
  · intro st l
    induction l with
    | nil => intro _; rfl
    | cons e rest ih =>
      intro hall
      have he := hall e (List.mem_cons_self _ _)
      rw [condSweep]
      cases hf : e.2 st with
      | error ex =>
        rw [condFire] at he
        rw [hf] at he
        exact absurd he (by simp)
      | ok b =>
        have hrest := ih (fun x hx => hall x (List.mem_cons_of_mem _ hx))
        have hcf : condFire st e = Option.some b := by
          rw [condFire, hf]
        cases b with
        | true =>
          dsimp only
          rw [hrest]
          rw [List.filter_cons, List.filter_cons]
          simp [hcf]
        | false =>
          dsimp only
          rw [hrest]
          rw [List.filter_cons, List.filter_cons]
          simp [hcf]

/-- Witness for C9 at a concrete server with one entry per registry. -/
theorem c9_witness :
    ((⟨[("x", Val.int 1)], ⟨[(2, fun _ => Except.ok false)]⟩,
        ⟨[("x", Val.int 1, 3)]⟩, [("y", ⟨[(4, Val.none)]⟩)],
        [(CKey.any, ⟨[(5, CBase.snap [])]⟩)],
        6⟩ : ZProcServer).resolve_all_handlers.pushes =
      [⟨5, Msg.obj (Res.dict [("x", Val.int 1)])⟩,
        ⟨3, Msg.obj (Res.bool true)⟩])
    ∧ condSweep [] [(7, fun _ => Except.ok true)] =
        ([⟨7, Msg.obj (Res.dict [])⟩], Except.ok []) := by
  constructor
  · have h := (c9_fixed_order_fifo
      (⟨[("x", Val.int 1)], ⟨[(2, fun _ => Except.ok false)]⟩,
        ⟨[("x", Val.int 1, 3)]⟩, [("y", ⟨[(4, Val.none)]⟩)],
        [(CKey.any, ⟨[(5, CBase.snap [])]⟩)], 6⟩ : ZProcServer)).1 rfl
    rw [h]
    rfl
  · have h := (c9_fixed_order_fifo (emptyServer [] 0)).2.2.2.2 []
      [(7, fun _ => Except.ok true)]
      (by
        intro e he
        rcases List.mem_singleton.mp he with rfl
        rfl)
    rw [h]
    rfl

/-- A second sweep over the held-back entries fires nothing and holds
them all back again. -/
theorem sweepList_stable {α : Type} (fire : α → Bool) (note : α → Push)
    (l : List α) :
    sweepList fire note (sweepList fire note l).2 =
      ([], (sweepList fire note l).2) := by
  simp only [sweepList_spec, List.filter_filter]
  rw [Prod.mk.injEq]
  constructor
  · have : (fun a => fire a && !fire a) = fun _ => false := by
      funext a
      cases h : fire a <;> simp [h]
    rw [this]
    simp
  · have : (fun a => !fire a && !fire a) = fun a => !fire a := by
      funext a
      cases h : fire a <;> simp [h]
    rw [this]

/-- A second change sweep of one queue is a no-op. -/
theorem changeStep_stable (st : Dict) (ck : CKey)
    (q : Queue (Nat × CBase)) :
    changeStep st ck (changeStep st ck q).2 =
      ([], (changeStep st ck q).2) := by
  unfold changeStep
  dsimp only
  rw [fromDrain_drainList, sweepList_stable]

/-- A second value-change sweep of one queue is a no-op. -/
theorem valStep_stable (st : Dict) (k : String) (q : Queue (Nat × Val)) :
    valStep st k (valStep st k q).2 = ([], (valStep st k q).2) := by
  unfold valStep
  dsimp only
  rw [fromDrain_drainList, sweepList_stable]

/-- A second registry-wide sweep is a no-op when each per-queue sweep
is. -/
theorem sweepDMap_stable {κ α : Type}
    (f : κ → Queue α → List Push × Queue α)
    (hs : ∀ k q, f k (f k q).2 = ([], (f k q).2)) :
    ∀ m : DMap κ (Queue α),
      sweepDMap f (sweepDMap f m).2 = ([], (sweepDMap f m).2) := by
  intro m
  induction m with
  | nil => rfl
  | cons p rest ih =>
    show sweepDMap f ((p.1, (f p.1 p.2).2) :: (sweepDMap f rest).2) = _
    rw [sweepDMap]
    dsimp only
    rw [hs p.1 p.2, ih]
    rfl

/-- A second condition sweep over the held-back entries fires nothing,
raises nothing, and holds them all back. -/
theorem condSweep_stable (st : Dict) :
    ∀ (l : List CondEntry) {back : List CondEntry},
      (condSweep st l).2 = Except.ok back →
      condSweep st back = ([], Except.ok back) := by
  intro l
  induction l with
  | nil =>
    intro back h
    rw [condSweep] at h
    dsimp only at h
    injection h with h2
    subst h2
    rfl
  | cons e rest ih =>
    intro back h
    rw [condSweep] at h
    revert h
    cases he : e.2 st with
    | error ex =>
      dsimp only
      intro h
      exact absurd h (by simp)
    | ok b =>
      cases b with
      | true =>
        dsimp only
        intro h
        exact ih h
      | false =>
        dsimp only
        revert he
        cases hr : (condSweep st rest).2 with
        | error ex =>
          dsimp only
          intro he h
          exact absurd h (by simp)
        | ok l2 =>
          dsimp only
          intro he h
          injection h with h2
          subst h2
          rw [condSweep]
          rw [he]
          dsimp only
          rw [ih hr]

/-- A stale change sweep: running the change resolver on any server that
has the state and the post-sweep change registry of an earlier run is a
no-op. -/
theorem resolve_change_stable (t s' : ZProcServer)
    (hst : s'.state = t.state)
    (hch : s'.change_handlers =
      t.resolve_change_handlers.server.change_handlers) :
    s'.resolve_change_handlers = ⟨s', [], Option.none⟩ := by
  obtain ⟨st', cq', eq', vm', cm', n'⟩ := s'
  dsimp only at hst hch
  subst hst hch
  unfold ZProcServer.resolve_change_handlers
  dsimp only
  rw [sweepDMap_stable (changeStep t.state) (changeStep_stable t.state)]

/-- A stale value-change sweep is a no-op. -/
theorem resolve_val_stable (t s' : ZProcServer)
    (hst : s'.state = t.state)
    (hch : s'.val_change_handlers =
      t.resolve_val_change_handlers.server.val_change_handlers) :
    s'.resolve_val_change_handlers = ⟨s', [], Option.none⟩ := by
  obtain ⟨st', cq', eq', vm', cm', n'⟩ := s'
  dsimp only at hst hch
  subst hst hch
  unfold ZProcServer.resolve_val_change_handlers
  dsimp only
  rw [sweepDMap_stable (valStep t.state) (valStep_stable t.state)]

/-- A stale equals sweep is a no-op. -/
theorem resolve_equals_stable (t s' : ZProcServer)
    (hst : s'.state = t.state)
    (hch : s'.equals_handlers =
      t.resolve_equals_handler.server.equals_handlers) :
    s'.resolve_equals_handler = ⟨s', [], Option.none⟩ := by
  obtain ⟨st', cq', eq', vm', cm', n'⟩ := s'
  dsimp only at hst hch
  subst hst hch
  unfold ZProcServer.resolve_equals_handler
  dsimp only
  rw [fromDrain_drainList, sweepList_stable]

/-- A stale condition sweep is a no-op when the earlier sweep did not
raise. -/
theorem resolve_condition_stable (t s' : ZProcServer)
    (hst : s'.state = t.state)
    (hok : t.resolve_condition_handlers.err = Option.none)
    (hch : s'.condition_handlers =
      t.resolve_condition_handlers.server.condition_handlers) :
    s'.resolve_condition_handlers = ⟨s', [], Option.none⟩ := by
  obtain ⟨st', cq', eq', vm', cm', n'⟩ := s'
  dsimp only at hst hch
  subst hst
  unfold ZProcServer.resolve_condition_handlers at hok hch ⊢
  dsimp only at hok hch ⊢
  revert hok hch
  cases hr : (condSweep t.state (Queue.drainList t.condition_handlers)).2
    with
  | error ex =>
    intro hok
    exact absurd hok (by simp [condErrAfter])
  | ok back =>
    intro _ hch
    subst hch
    have hd : Queue.drainList (condQueueAfter (Except.ok back)) = back := by
      rw [condQueueAfter]
      exact fromDrain_drainList back
    rw [hd, condSweep_stable t.state _ hr]
    rfl

/-- C8: resolution is idempotent — after an error-free
`resolve_all_handlers`, running it again pushes no notification, raises
nothing, and leaves the server (every registry queue included) exactly
as the first run left it. -/
theorem c8_resolve_all_idempotent (s : ZProcServer)
    (h : s.resolve_all_handlers.err = Option.none) :
    s.resolve_all_handlers.server.resolve_all_handlers.pushes = []
    ∧ s.resolve_all_handlers.server.resolve_all_handlers.err
        = Option.none
    ∧ s.resolve_all_handlers.server.resolve_all_handlers.server
        = s.resolve_all_handlers.server := by
  by_cases hb :
      s.resolve_change_handlers.server.resolve_condition_handlers.err.isSome
      = true
  · exfalso
    unfold ZProcServer.resolve_all_handlers at h
    dsimp only at h
    rw [if_pos hb] at h
    dsimp only at h
    rw [h] at hb
    exact absurd hb (by simp)
  · have hs1 : s.resolve_all_handlers.server =
        s.resolve_change_handlers.server.resolve_condition_handlers.server.resolve_val_change_handlers.server.resolve_equals_handler.server := by
      unfold ZProcServer.resolve_all_handlers
      dsimp only
      rw [if_neg hb]
    have hcondok :
        s.resolve_change_handlers.server.resolve_condition_handlers.err
          = Option.none := Option.not_isSome_iff_eq_none.mp
        (by simpa using hb)
    have h1 : s.resolve_all_handlers.server.resolve_change_handlers =
        ⟨s.resolve_all_handlers.server, [], Option.none⟩ := by
      apply resolve_change_stable s
      · rw [hs1]
        rw [(resolve_equals_fields _).1, (resolve_val_fields _).1,
          (resolve_condition_fields _).1, (resolve_change_fields _).1]
      · rw [hs1]
        rw [(resolve_equals_fields _).2.2.2.1,
          (resolve_val_fields _).2.2.2.1,
          (resolve_condition_fields _).2.2.2.1]
    have h2 : s.resolve_all_handlers.server.resolve_condition_handlers =
        ⟨s.resolve_all_handlers.server, [], Option.none⟩ := by
      apply resolve_condition_stable s.resolve_change_handlers.server
      · rw [hs1]
        rw [(resolve_equals_fields _).1, (resolve_val_fields _).1,
          (resolve_condition_fields _).1]
      · exact hcondok
      · rw [hs1]
        rw [(resolve_equals_fields _).2.1, (resolve_val_fields _).2.1]
    have h3 : s.resolve_all_handlers.server.resolve_val_change_handlers =
        ⟨s.resolve_all_handlers.server, [], Option.none⟩ := by
      apply resolve_val_stable
        s.resolve_change_handlers.server.resolve_condition_handlers.server
      · rw [hs1]
        rw [(resolve_equals_fields _).1, (resolve_val_fields _).1]
      · rw [hs1]
        rw [(resolve_equals_fields _).2.2.1]
    have h4 : s.resolve_all_handlers.server.resolve_equals_handler =
        ⟨s.resolve_all_handlers.server, [], Option.none⟩ := by
      apply resolve_equals_stable
        s.resolve_change_handlers.server.resolve_condition_handlers.server.resolve_val_change_handlers.server
      · rw [hs1]
        rw [(resolve_equals_fields _).1]
      · rw [hs1]
    generalize hg : s.resolve_all_handlers.server = s1 at h1 h2 h3 h4 ⊢
    unfold ZProcServer.resolve_all_handlers
    dsimp only
    rw [h1]
    dsimp only
    rw [h2]
    dsimp only
    rw [if_neg (by simp : ¬(Option.none : Option PyErr).isSome = true)]
    rw [h3]
    dsimp only
    rw [h4]
    exact ⟨rfl, rfl, rfl⟩

/-- Witness for C8 at the one-watcher-per-registry server of the C9
witness. -/
theorem c8_witness :
    ((⟨[("x", Val.int 1)], ⟨[(2, fun _ => Except.ok false)]⟩,
        ⟨[("x", Val.int 1, 3)]⟩, [("y", ⟨[(4, Val.none)]⟩)],
        [(CKey.any, ⟨[(5, CBase.snap [])]⟩)],
        6⟩ : ZProcServer)).resolve_all_handlers.server.resolve_all_handlers.pushes
      = []
    ∧ ((⟨[("x", Val.int 1)], ⟨[(2, fun _ => Except.ok false)]⟩,
        ⟨[("x", Val.int 1, 3)]⟩, [("y", ⟨[(4, Val.none)]⟩)],
        [(CKey.any, ⟨[(5, CBase.snap [])]⟩)],
        6⟩ : ZProcServer)).resolve_all_handlers.server.resolve_all_handlers.err
      = Option.none
    ∧ ((⟨[("x", Val.int 1)], ⟨[(2, fun _ => Except.ok false)]⟩,
        ⟨[("x", Val.int 1, 3)]⟩, [("y", ⟨[(4, Val.none)]⟩)],
        [(CKey.any, ⟨[(5, CBase.snap [])]⟩)],
        6⟩ : ZProcServer)).resolve_all_handlers.server.resolve_all_handlers.server
      = ((⟨[("x", Val.int 1)], ⟨[(2, fun _ => Except.ok false)]⟩,
        ⟨[("x", Val.int 1, 3)]⟩, [("y", ⟨[(4, Val.none)]⟩)],
        [(CKey.any, ⟨[(5, CBase.snap [])]⟩)],
        6⟩ : ZProcServer)).resolve_all_handlers.server :=
  c8_resolve_all_idempotent
    (⟨[("x", Val.int 1)], ⟨[(2, fun _ => Except.ok false)]⟩,
      ⟨[("x", Val.int 1, 3)]⟩, [("y", ⟨[(4, Val.none)]⟩)],
      [(CKey.any, ⟨[(5, CBase.snap [])]⟩)], 6⟩ : ZProcServer) rfl

/-- Server holding exactly one (pending) value-change watcher and no
other watcher of any kind. -/
def pendingS (st : Dict) (k : String) (eip : Nat) (v0 : Val) (m : Nat) :
    ZProcServer :=
  ⟨st, Queue.empty, Queue.empty, [(k, ⟨[(eip, v0)]⟩)], [], m⟩

/-- The same server after its single value-change watcher has fired:
the registry key remains with an empty queue. -/
def firedS (st : Dict) (k : String) (m : Nat) : ZProcServer :=
  ⟨st, Queue.empty, Queue.empty, [(k, ⟨[]⟩)], [], m⟩

/-- The state dict produced by one named operation (unchanged when the
operation raises). -/
def stepCallDict (it : String) (as : List PyArg) (st : Dict) : Dict :=
  match dictCall it as st with
  | Except.ok rd => rd.2
  | Except.error _ => st

/-- `get` leaves the dict unchanged. -/
theorem op_get_state {as : List PyArg} {st : Dict} {rd : Res × Dict}
    (h : op_get as st = Except.ok rd) : rd.2 = st := by
  unfold op_get at h
  split at h
  all_goals first
    | (injection h with h1; subst h1; rfl)
    | exact absurd h (by simp)

/-- `copy` leaves the dict unchanged. -/
theorem op_copy_state {as : List PyArg} {st : Dict} {rd : Res × Dict}
    (h : op_copy as st = Except.ok rd) : rd.2 = st := by
  unfold op_copy at h
  split at h
  all_goals first
    | (injection h with h1; subst h1; rfl)
    | exact absurd h (by simp)

/-- `keys` leaves the dict unchanged. -/
theorem op_keys_state {as : List PyArg} {st : Dict} {rd : Res × Dict}
    (h : op_keys as st = Except.ok rd) : rd.2 = st := by
  unfold op_keys at h
  split at h
  all_goals first
    | (injection h with h1; subst h1; rfl)
    | exact absurd h (by simp)

/-- `values` leaves the dict unchanged. -/
theorem op_values_state {as : List PyArg} {st : Dict} {rd : Res × Dict}
    (h : op_values as st = Except.ok rd) : rd.2 = st := by
  unfold op_values at h
  split at h
  all_goals first
    | (injection h with h1; subst h1; rfl)
    | exact absurd h (by simp)

/-- `items` leaves the dict unchanged. -/
theorem op_items_state {as : List PyArg} {st : Dict} {rd : Res × Dict}
    (h : op_items as st = Except.ok rd) : rd.2 = st := by
  unfold op_items at h
  split at h
  all_goals first
    | (injection h with h1; subst h1; rfl)
    | exact absurd h (by simp)

/-- `__len__` leaves the dict unchanged. -/
theorem op_len_state {as : List PyArg} {st : Dict} {rd : Res × Dict}
    (h : op_len as st = Except.ok rd) : rd.2 = st := by
  unfold op_len at h
  split at h
  all_goals first
    | (injection h with h1; subst h1; rfl)
    | exact absurd h (by simp)

/-- `__contains__` leaves the dict unchanged. -/
theorem op_contains_state {as : List PyArg} {st : Dict} {rd : Res × Dict}
    (h : op_contains as st = Except.ok rd) : rd.2 = st := by
  unfold op_contains at h
  split at h
  all_goals first
    | (injection h with h1; subst h1; rfl)
    | exact absurd h (by simp)

/-- `__eq__` leaves the dict unchanged. -/
theorem op_dicteq_state {as : List PyArg} {st : Dict} {rd : Res × Dict}
    (h : op_dicteq as st = Except.ok rd) : rd.2 = st := by
  unfold op_dicteq at h
  split at h
  all_goals first
    | (injection h with h1; subst h1; rfl)
    | exact absurd h (by simp)

/-- An operation outside `ACTIONS_THAT_MUTATE` never changes the state
dict. -/
theorem dictCall_nonmut_state (it : String) (as : List PyArg) (st : Dict)
    {rd : Res × Dict} (hnm : it ∉ ACTIONS_THAT_MUTATE)
    (h : dictCall it as st = Except.ok rd) : rd.2 = st := by
  have h1 : it ≠ "__setitem__" := by
    intro he
    exact hnm (by rw [he]; decide)
  have h2 : it ≠ "__delitem__" := by
    intro he
    exact hnm (by rw [he]; decide)
  have h3 : it ≠ "setdefault" := by
    intro he
    exact hnm (by rw [he]; decide)
  have h4 : it ≠ "pop" := by
    intro he
    exact hnm (by rw [he]; decide)
  have h5 : it ≠ "popitem" := by
    intro he
    exact hnm (by rw [he]; decide)
  have h6 : it ≠ "clear" := by
    intro he
    exact hnm (by rw [he]; decide)
  have h7 : it ≠ "update" := by
    intro he
    exact hnm (by rw [he]; decide)
  unfold dictCall at h
  rw [if_neg h1, if_neg h2, if_neg h3, if_neg h4, if_neg h5, if_neg h6,
    if_neg h7] at h
  by_cases hg : it = "get"
  · rw [if_pos hg] at h
    exact op_get_state h
  rw [if_neg hg] at h
  by_cases hg : it = "copy"
  · rw [if_pos hg] at h
    exact op_copy_state h
  rw [if_neg hg] at h
  by_cases hg : it = "keys"
  · rw [if_pos hg] at h
    exact op_keys_state h
  rw [if_neg hg] at h
  by_cases hg : it = "values"
  · rw [if_pos hg] at h
    exact op_values_state h
  rw [if_neg hg] at h
  by_cases hg : it = "items"
  · rw [if_pos hg] at h
    exact op_items_state h
  rw [if_neg hg] at h
  by_cases hg : it = "__len__"
  · rw [if_pos hg] at h
    exact op_len_state h
  rw [if_neg hg] at h
  by_cases hg : it = "__contains__"
  · rw [if_pos hg] at h
    exact op_contains_state h
  rw [if_neg hg] at h
  by_cases hg : it = "__eq__"
  · rw [if_pos hg] at h
    exact op_dicteq_state h
  rw [if_neg hg] at h
  exact absurd h (by simp)

/-- A sweep over a single entry. -/
theorem sweepList_singleton {α : Type} (fire : α → Bool) (note : α → Push)
    (x : α) :
    sweepList fire note [x] =
      if fire x then ([note x], []) else ([], [x]) := by
  unfold sweepList
  dsimp only
  by_cases h : fire x = true
  · rw [if_pos h, if_pos h]
    rfl
  · rw [if_neg h, if_neg h]
    rfl

/-- The change resolver is the identity on a server with an empty change
registry. -/
theorem resolve_change_nil (s : ZProcServer) (h : s.change_handlers = []) :
    s.resolve_change_handlers = ⟨s, [], Option.none⟩ := by
  obtain ⟨st, cq, eqq, vm, cm, n⟩ := s
  dsimp only at h
  subst h
  rfl

/-- The equals resolver is the identity on an empty equals queue. -/
theorem resolve_equals_empty (s : ZProcServer)
    (h : s.equals_handlers = Queue.empty) :
    s.resolve_equals_handler = ⟨s, [], Option.none⟩ := by
  obtain ⟨st, cq, eqq, vm, cm, n⟩ := s
  dsimp only at h
  subst h
  rfl

/-- The value-change resolver on a registry holding exactly one entry:
it fires (removing the entry and pushing the new value) exactly when the
current value differs from the stored baseline. -/
theorem resolve_val_single (s : ZProcServer) (k : String) (eip : Nat)
    (v0 : Val) (h : s.val_change_handlers = [(k, ⟨[(eip, v0)]⟩)]) :
    s.resolve_val_change_handlers =
      (if Dict.get s.state k = v0 then
        ⟨⟨s.state, s.condition_handlers, s.equals_handlers,
          [(k, ⟨[(eip, v0)]⟩)], s.change_handlers, s.nextIpc⟩, [],
          Option.none⟩
      else
        ⟨⟨s.state, s.condition_handlers, s.equals_handlers, [(k, ⟨[]⟩)],
          s.change_handlers, s.nextIpc⟩,
          [⟨eip, Msg.obj (Res.val (Dict.get s.state k))⟩],
          Option.none⟩) := by
  obtain ⟨st, cq, eqq, vm, cm, n⟩ := s
  dsimp only at h ⊢
  subst h
  unfold ZProcServer.resolve_val_change_handlers
  dsimp only [sweepDMap]
  unfold valStep
  dsimp only
  have hdl : Queue.drainList (⟨[(eip, v0)]⟩ : Queue (Nat × Val))
      = [(eip, v0)] := rfl
  rw [hdl, sweepList_singleton]
  by_cases hv : Dict.get st k = v0
  · rw [if_pos hv]
    have hfire : (!decide ((((eip, v0) : Nat × Val)).2 = Dict.get st k))
        = false := by simp [hv]
    rw [hfire]
    rfl
  · rw [if_neg hv]
    have hfire : (!decide ((((eip, v0) : Nat × Val)).2 = Dict.get st k))
        = true := by
      simp only [Bool.not_eq_true', decide_eq_false_iff_not]
      intro he
      exact hv he.symm
    rw [hfire]
    rfl

/-- The value-change resolver is the identity once the single watcher's
queue is empty. -/
theorem resolve_val_fired (s : ZProcServer) (k : String)
    (h : s.val_change_handlers = [(k, ⟨[]⟩)]) :
    s.resolve_val_change_handlers = ⟨s, [], Option.none⟩ := by
  obtain ⟨st, cq, eqq, vm, cm, n⟩ := s
  dsimp only at h
  subst h
  rfl

/-- The full resolver on the pending one-watcher server. -/
theorem resolve_all_pending (st' : Dict) (k : String) (eip : Nat)
    (v0 : Val) (m : Nat) :
    (pendingS st' k eip v0 m).resolve_all_handlers =
      (if Dict.get st' k = v0 then
        ⟨pendingS st' k eip v0 m, [], Option.none⟩
      else
        ⟨firedS st' k m,
          [⟨eip, Msg.obj (Res.val (Dict.get st' k))⟩], Option.none⟩) := by
  by_cases hv : Dict.get st' k = v0
  · rw [if_pos hv]
    unfold pendingS
    unfold ZProcServer.resolve_all_handlers
    rw [resolve_change_nil _ rfl]
    dsimp only
    rw [resolve_condition_empty _ rfl]
    dsimp only
    rw [if_neg (by simp : ¬(Option.none : Option PyErr).isSome = true)]
    rw [resolve_val_single _ k eip v0 rfl]
    dsimp only
    rw [if_pos hv]
    dsimp only
    rw [resolve_equals_empty _ rfl]
    rfl
  · rw [if_neg hv]
    unfold pendingS firedS
    unfold ZProcServer.resolve_all_handlers
    rw [resolve_change_nil _ rfl]
    dsimp only
    rw [resolve_condition_empty _ rfl]
    dsimp only
    rw [if_neg (by simp : ¬(Option.none : Option PyErr).isSome = true)]
    rw [resolve_val_single _ k eip v0 rfl]
    dsimp only
    rw [if_neg hv]
    dsimp only
    rw [resolve_equals_empty _ rfl]
    rfl

/-- The full resolver on the fired one-watcher server is silent. -/
theorem resolve_all_fired (st' : Dict) (k : String) (m : Nat) :
    (firedS st' k m).resolve_all_handlers =
      ⟨firedS st' k m, [], Option.none⟩ := by
  unfold ZProcServer.resolve_all_handlers
  rw [resolve_change_nil _ rfl]
  dsimp only
  rw [resolve_condition_empty _ rfl]
  dsimp only
  rw [if_neg (by simp : ¬(Option.none : Option PyErr).isSome = true)]
  rw [resolve_val_fired _ k rfl]
  dsimp only
  rw [resolve_equals_empty _ rfl]
  rfl

/-- One `get_state_callable` request against the pending one-watcher
server: the watcher fires exactly when the operation leaves the key's
value different from the baseline. -/
theorem step_pending (st : Dict) (k : String) (eip : Nat) (v0 : Val)
    (m ident : Nat) (it : String) (as : List PyArg)
    (hcur : Dict.get st k = v0) :
    ((state_server_step (pendingS st k eip v0 m) ident
        (callMsg it as)).server =
      (if Dict.get (stepCallDict it as st) k = v0 then
        pendingS (stepCallDict it as st) k eip v0 m
      else firedS (stepCallDict it as st) k m))
    ∧ (state_server_step (pendingS st k eip v0 m) ident
        (callMsg it as)).pushes =
      (if Dict.get (stepCallDict it as st) k = v0 then []
       else [⟨eip,
          Msg.obj (Res.val (Dict.get (stepCallDict it as st) k))⟩]) := by
  rw [step_action_call _ _ _ rfl, wrapOut_server, wrapOut_pushes]
  unfold ZProcServer.get_state_callable
  dsimp only [callMsg, pendingS]
  cases hd : dictCall it as st with
  | error ex =>
    have hst : stepCallDict it as st = st := by
      unfold stepCallDict
      rw [hd]
    rw [hst, if_pos hcur, if_pos hcur]
    exact ⟨rfl, rfl⟩
  | ok rd =>
    have hst : stepCallDict it as st = rd.2 := by
      unfold stepCallDict
      rw [hd]
    rw [hst]
    dsimp only
    by_cases hb : (decide (it ∈ ACTIONS_THAT_MUTATE) &&
        !Dict.beq st rd.2) = true
    · rw [if_pos hb]
      dsimp only
      have hres := resolve_all_pending rd.2 k eip v0 m
      unfold pendingS at hres
      rw [hres]
      by_cases hv : Dict.get rd.2 k = v0
      · rw [if_pos hv, if_pos hv, if_pos hv]
        exact ⟨rfl, rfl⟩
      · rw [if_neg hv, if_neg hv, if_neg hv]
        exact ⟨rfl, rfl⟩
    · rw [if_neg hb]
      have hsame : Dict.get rd.2 k = v0 := by
        rcases Bool.and_eq_false_iff.mp (Bool.not_eq_true _ ▸ hb)
          with h1 | h1
        · have hnm : it ∉ ACTIONS_THAT_MUTATE := by
            intro hmem
            rw [decide_eq_true hmem] at h1
            exact absurd h1 (by simp)
          rw [dictCall_nonmut_state it as st hnm hd]
          exact hcur
        · have hbeq : Dict.beq st rd.2 = true := by
            cases hq : Dict.beq st rd.2
            · rw [hq] at h1
              exact absurd h1 (by simp)
            · rfl
          rw [← Dict.get_eq_of_beq hbeq k]
          exact hcur
      rw [if_pos hsame, if_pos hsame]
      exact ⟨rfl, rfl⟩

/-- One `get_state_callable` request against the fired one-watcher
server: nothing is ever pushed again. -/
theorem step_fired (st : Dict) (k : String) (m ident : Nat) (it : String)
    (as : List PyArg) :
    (state_server_step (firedS st k m) ident (callMsg it as)).server
        = firedS (stepCallDict it as st) k m
    ∧ (state_server_step (firedS st k m) ident (callMsg it as)).pushes
        = [] := by
  rw [step_action_call _ _ _ rfl, wrapOut_server, wrapOut_pushes]
  unfold ZProcServer.get_state_callable
  dsimp only [callMsg, firedS]
  cases hd : dictCall it as st with
  | error ex =>
    have hst : stepCallDict it as st = st := by
      unfold stepCallDict
      rw [hd]
    rw [hst]
    exact ⟨rfl, rfl⟩
  | ok rd =>
    have hst : stepCallDict it as st = rd.2 := by
      unfold stepCallDict
      rw [hd]
    rw [hst]
    dsimp only
    by_cases hb : (decide (it ∈ ACTIONS_THAT_MUTATE) &&
        !Dict.beq st rd.2) = true
    · rw [if_pos hb]
      dsimp only
      have hres := resolve_all_fired rd.2 k m
      unfold firedS at hres
      rw [hres]
      exact ⟨rfl, rfl⟩
    · rw [if_neg hb]
      exact ⟨rfl, rfl⟩

/-- After the watcher has fired, no request of the trace ever pushes
again. -/
theorem run_fired_silent (k : String) (m ident : Nat) :
    ∀ (ops : List (String × List PyArg)) (st : Dict) (i : Nat),
      pushesAt (firedS st k m) ident
        (ops.map (fun o => callMsg o.1 o.2)) i = [] := by
  intro ops
  induction ops with
  | nil =>
    intro st i
    simp [pushesAt]
  | cons o rest ih =>
    intro st i
    cases i with
    | zero => exact (step_fired st k m ident o.1 o.2).2
    | succ j =>
      show pushesAt (state_server_step (firedS st k m) ident
        (callMsg o.1 o.2)).server ident
        (rest.map (fun o => callMsg o.1 o.2)) j = []
      rw [(step_fired st k m ident o.1 o.2).1]
      exact ih (stepCallDict o.1 o.2 st) j

/-- Shifting a bounded quantifier over trace states across the first
request of the trace. -/
theorem stAt_shift_iff (s : ZProcServer) (ident : Nat) (m : WireMsg)
    (msgs : List WireMsg) (k : String) (v0 : Val) (n : Nat) :
    (∀ j, j < n + 1 → Dict.get (stAt s ident (m :: msgs) j) k = v0) ↔
      (Dict.get (state_server_step s ident m).server.state k = v0 ∧
        ∀ j, j < n →
          Dict.get (stAt (state_server_step s ident m).server ident msgs
            j) k = v0) := by
  constructor
  · intro h
    exact ⟨h 0 (Nat.succ_pos n),
      fun j hj => h (j + 1) (Nat.succ_lt_succ hj)⟩
  · intro h j hj
    cases j with
    | zero => exact h.1
    | succ j' => exact h.2 j' (Nat.lt_of_succ_lt_succ hj)

/-- The pending watcher's trace: request `i` pushes the watcher's
notification exactly when it is the first request leaving the watched
key's value different from the baseline. -/
theorem run_pending (k : String) (eip m ident : Nat) (v0 : Val) :
    ∀ (ops : List (String × List PyArg)) (st : Dict),
      Dict.get st k = v0 →
      ∀ i,
        pushesAt (pendingS st k eip v0 m) ident
          (ops.map (fun o => callMsg o.1 o.2)) i =
        (if Dict.get (stAt (pendingS st k eip v0 m) ident
              (ops.map (fun o => callMsg o.1 o.2)) i) k ≠ v0
            ∧ ∀ j, j < i →
              Dict.get (stAt (pendingS st k eip v0 m) ident
                (ops.map (fun o => callMsg o.1 o.2)) j) k = v0
         then [⟨eip, Msg.obj (Res.val
            (Dict.get (stAt (pendingS st k eip v0 m) ident
              (ops.map (fun o => callMsg o.1 o.2)) i) k))⟩]
         else []) := by
  intro ops
  induction ops with
  | nil =>
    intro st hcur i
    rw [if_neg]
    · simp [pushesAt]
    · intro hcon
      refine hcon.1 ?_
      have hsa : stAt (pendingS st k eip v0 m) ident
          (List.map (fun o => callMsg o.1 o.2)
            ([] : List (String × List PyArg))) i = st := by
        simp [stAt, pendingS]
      rw [hsa]
      exact hcur
  | cons o rest ih =>
    intro st hcur i
    have hs := step_pending st k eip v0 m ident o.1 o.2 hcur
    by_cases hv : Dict.get (stepCallDict o.1 o.2 st) k = v0
    · rw [if_pos hv, if_pos hv] at hs
      cases i with
      | zero =>
        have hst0 : stAt (pendingS st k eip v0 m) ident
            ((o :: rest).map (fun o => callMsg o.1 o.2)) 0 =
            stepCallDict o.1 o.2 st := by
          show (state_server_step (pendingS st k eip v0 m) ident
            (callMsg o.1 o.2)).server.state = _
          rw [hs.1]
          rfl
        rw [if_neg]
        · exact hs.2
        · intro hcon
          refine hcon.1 ?_
          rw [hst0]
          exact hv
      | succ j =>
        have hL : pushesAt (pendingS st k eip v0 m) ident
            ((o :: rest).map (fun o => callMsg o.1 o.2)) (j + 1) =
            pushesAt (pendingS (stepCallDict o.1 o.2 st) k eip v0 m)
              ident (rest.map (fun o => callMsg o.1 o.2)) j := by
          show pushesAt (state_server_step (pendingS st k eip v0 m)
            ident (callMsg o.1 o.2)).server ident
            (rest.map (fun o => callMsg o.1 o.2)) j = _
          rw [hs.1]
        have hSsucc : ∀ j', stAt (pendingS st k eip v0 m) ident
            ((o :: rest).map (fun o => callMsg o.1 o.2)) (j' + 1) =
            stAt (pendingS (stepCallDict o.1 o.2 st) k eip v0 m) ident
              (rest.map (fun o => callMsg o.1 o.2)) j' := by
          intro j'
          show stAt (state_server_step (pendingS st k eip v0 m) ident
            (callMsg o.1 o.2)).server ident
            (rest.map (fun o => callMsg o.1 o.2)) j' = _
          rw [hs.1]
        have hS0 : stAt (pendingS st k eip v0 m) ident
            ((o :: rest).map (fun o => callMsg o.1 o.2)) 0 =
            stepCallDict o.1 o.2 st := by
          show (state_server_step (pendingS st k eip v0 m) ident
            (callMsg o.1 o.2)).server.state = _
          rw [hs.1]
          rfl
        rw [hL, ih (stepCallDict o.1 o.2 st) hv j]
        refine if_congr ?_ ?_ rfl
        · constructor
          · intro hc
            constructor
            · rw [hSsucc j]
              exact hc.1
            · intro j' hj'
              cases j' with
              | zero =>
                rw [hS0]
                exact hv
              | succ j'' =>
                rw [hSsucc j'']
                exact hc.2 j'' (Nat.lt_of_succ_lt_succ hj')
          · intro hc
            constructor
            · rw [← hSsucc j]
              exact hc.1
            · intro j'' hj''
              rw [← hSsucc j'']
              exact hc.2 (j'' + 1) (Nat.succ_lt_succ hj'')
        · rw [hSsucc j]
    · rw [if_neg hv, if_neg hv] at hs
      cases i with
      | zero =>
        have hst0 : stAt (pendingS st k eip v0 m) ident
            ((o :: rest).map (fun o => callMsg o.1 o.2)) 0 =
            stepCallDict o.1 o.2 st := by
          show (state_server_step (pendingS st k eip v0 m) ident
            (callMsg o.1 o.2)).server.state = _
          rw [hs.1]
          rfl
        rw [if_pos]
        · rw [hst0]
          exact hs.2
        · constructor
          · rw [hst0]
            exact hv
          · intro j hj
            exact absurd hj (Nat.not_lt_zero j)
      | succ j =>
        have hL : pushesAt (pendingS st k eip v0 m) ident
            ((o :: rest).map (fun o => callMsg o.1 o.2)) (j + 1) =
            pushesAt (firedS (stepCallDict o.1 o.2 st) k m) ident
              (rest.map (fun o => callMsg o.1 o.2)) j := by
          show pushesAt (state_server_step (pendingS st k eip v0 m)
            ident (callMsg o.1 o.2)).server ident
            (rest.map (fun o => callMsg o.1 o.2)) j = _
          rw [hs.1]
        have hst0 : stAt (pendingS st k eip v0 m) ident
            ((o :: rest).map (fun o => callMsg o.1 o.2)) 0 =
            stepCallDict o.1 o.2 st := by
          show (state_server_step (pendingS st k eip v0 m) ident
            (callMsg o.1 o.2)).server.state = _
          rw [hs.1]
          rfl
        rw [hL, run_fired_silent k m ident rest (stepCallDict o.1 o.2 st)
          j]
        rw [if_neg]
        intro hcon
        have h0 := hcon.2 0 (Nat.succ_pos j)
        rw [hst0] at h0
        exact hv h0

/-- Registering a value-change watcher whose baseline matches the
current value: endpoint reply, entry queued, no push. -/
theorem register_val_watch (st : Dict) (k : String) (v0 : Val)
    (n ident : Nat) (hbase : Dict.get st k = v0) :
    state_server_step (emptyServer st n) ident (valWatchMsg k v0) =
      ⟨pendingS st k n v0 (n + 1), [], [(ident, Msg.endpoint n)]⟩ := by
  rw [step_action_add_val _ _ _ rfl]
  unfold ZProcServer.add_val_change_handler
  dsimp only [valWatchMsg, emptyServer]
  rw [resolve_val_single _ k n v0 rfl]
  dsimp only
  rw [if_pos hbase]
  rfl

/-- Registering a value-change watcher whose client-supplied baseline
already differs from the current value: it fires immediately on the
registration sweep, with no mutation ever made. -/
theorem register_val_watch_neg (st : Dict) (k : String) (v1 : Val)
    (n ident : Nat) (hne : Dict.get st k ≠ v1) :
    state_server_step (emptyServer st n) ident (valWatchMsg k v1) =
      ⟨firedS st k (n + 1),
        [⟨n, Msg.obj (Res.val (Dict.get st k))⟩],
        [(ident, Msg.endpoint n)]⟩ := by
  rw [step_action_add_val _ _ _ rfl]
  unfold ZProcServer.add_val_change_handler
  dsimp only [valWatchMsg, emptyServer]
  rw [resolve_val_single _ k n v1 rfl]
  dsimp only
  rw [if_neg hne]
  rfl

/-- Counterexample to C3 as stated: a value-change watcher registered
with a client-supplied baseline that already differs from the current
value fires on the registration sweep itself, before any mutation. -/
theorem c3_counterexample :
    (state_server_step (emptyServer [("x", Val.int 0)] 7) 0
        (valWatchMsg "x" (Val.int 1))).pushes
      = [⟨7, Msg.obj (Res.val (Val.int 0))⟩] := by
  rfl

/-- C3 amended: on a server with no other watcher, a value-change
watcher on `k` whose baseline `v0` equals `state.get k` at registration
(always the case for the default baseline) does not fire at
registration, and then fires exactly once, on the first request after
which `state.get k` differs from `v0` (deletion included, since `get`
of a deleted key is None), and not before or after; a watcher whose
client-supplied baseline already differs fires exactly once immediately
on the registration sweep. -/
theorem c3_amended_val_change_fires_once (st : Dict) (k : String)
    (v0 : Val) (n ident : Nat) (ops : List (String × List PyArg))
    (i : Nat) (hbase : Dict.get st k = v0) :
    (state_server_step (emptyServer st n) ident (valWatchMsg k v0)).pushes
        = []
    ∧ (state_server_step (emptyServer st n) ident
        (valWatchMsg k v0)).server = pendingS st k n v0 (n + 1)
    ∧ (pushesAt (pendingS st k n v0 (n + 1)) ident
          (ops.map (fun o => callMsg o.1 o.2)) i =
        (if Dict.get (stAt (pendingS st k n v0 (n + 1)) ident
              (ops.map (fun o => callMsg o.1 o.2)) i) k ≠ v0
            ∧ ∀ j, j < i →
              Dict.get (stAt (pendingS st k n v0 (n + 1)) ident
                (ops.map (fun o => callMsg o.1 o.2)) j) k = v0
         then [⟨n, Msg.obj (Res.val
            (Dict.get (stAt (pendingS st k n v0 (n + 1)) ident
              (ops.map (fun o => callMsg o.1 o.2)) i) k))⟩]
         else []))
    ∧ (∀ v1 : Val, Dict.get st k ≠ v1 →
        (state_server_step (emptyServer st n) ident
            (valWatchMsg k v1)).pushes
          = [⟨n, Msg.obj (Res.val (Dict.get st k))⟩]
        ∧ ∀ i', pushesAt (firedS st k (n + 1)) ident
            (ops.map (fun o => callMsg o.1 o.2)) i' = []) := by
  refine ⟨?_, ?_, ?_, ?_⟩
  · rw [register_val_watch st k v0 n ident hbase]
  · rw [register_val_watch st k v0 n ident hbase]
  · exact run_pending k n (n + 1) ident v0 ops st hbase i
  · intro v1 hne
    constructor
    · rw [register_val_watch_neg st k v1 n ident hne]
    · intro i'
      exact run_fired_silent k (n + 1) ident ops st i'

/-- Witness for C3's amended statement at a concrete watcher and one
mutating request that changes the watched key. -/
theorem c3_witness :
    (state_server_step (emptyServer [("x", Val.int 0)] 4) 0
        (valWatchMsg "x" (Val.int 0))).pushes = []
    ∧ (state_server_step (emptyServer [("x", Val.int 0)] 4) 0
        (valWatchMsg "x" (Val.int 0))).server
        = pendingS [("x", Val.int 0)] "x" 4 (Val.int 0) 5
    ∧ pushesAt (pendingS [("x", Val.int 0)] "x" 4 (Val.int 0) 5) 0
        (List.map (fun o : String × List PyArg => callMsg o.1 o.2)
          [("__setitem__", [PyArg.k "x", PyArg.v (Val.int 1)])]) 0
        = [⟨4, Msg.obj (Res.val (Val.int 1))⟩]
    ∧ (state_server_step (emptyServer [("x", Val.int 0)] 4) 0
        (valWatchMsg "x" (Val.int 9))).pushes
        = [⟨4, Msg.obj (Res.val (Val.int 0))⟩]
    ∧ pushesAt (firedS [("x", Val.int 0)] "x" 5) 0
        (List.map (fun o : String × List PyArg => callMsg o.1 o.2)
          [("__setitem__", [PyArg.k "x", PyArg.v (Val.int 1)])]) 0
        = [] := by
  have h := c3_amended_val_change_fires_once [("x", Val.int 0)] "x"
    (Val.int 0) 4 0
    [("__setitem__", [PyArg.k "x", PyArg.v (Val.int 1)])] 0 rfl
  exact ⟨h.1, h.2.1, h.2.2.1, (h.2.2.2 (Val.int 9) (by decide)).1,
    (h.2.2.2 (Val.int 9) (by decide)).2 0⟩

/-- Endpoints registered in the condition queue. -/
def condIpcs (s : ZProcServer) : List Nat :=
  s.condition_handlers.deque.map Prod.fst

/-- Endpoints registered in the equals queue. -/
def eqIpcs (s : ZProcServer) : List Nat :=
  s.equals_handlers.deque.map (fun e => e.2.2)

/-- Endpoints registered across the value-change registry. -/
def valIpcs (s : ZProcServer) : List Nat :=
  dmapIpcs Prod.fst s.val_change_handlers

/-- Endpoints registered across the change registry. -/
def chIpcs (s : ZProcServer) : List Nat :=
  dmapIpcs Prod.fst s.change_handlers

/-- Every endpoint currently registered in any watcher queue. -/
def ZProcServer.allIpcs (s : ZProcServer) : List Nat :=
  condIpcs s ++ eqIpcs s ++ valIpcs s ++ chIpcs s

/-- Membership in a registry's endpoint list. -/
theorem mem_dmapIpcs {κ α : Type} (g : α → Nat) (i : Nat) :
    ∀ m : DMap κ (Queue α),
      i ∈ dmapIpcs g m ↔ ∃ p ∈ m, ∃ y ∈ p.2.deque, g y = i := by
  intro m
  induction m with
  | nil => simp [dmapIpcs]
  | cons p rest ih =>
    unfold dmapIpcs at ih ⊢
    rw [List.foldr_cons, List.mem_append, ih]
    constructor
    · intro h
      rcases h with h | ⟨q, hq, y, hy, hgy⟩
      · obtain ⟨y, hy, hgy⟩ := List.mem_map.mp h
        exact ⟨p, List.mem_cons_self _ _, y, hy, hgy⟩
      · exact ⟨q, List.mem_cons_of_mem _ hq, y, hy, hgy⟩
    · intro ⟨q, hq, y, hy, hgy⟩
      rcases List.mem_cons.mp hq with rfl | hq'
      · exact Or.inl (List.mem_map.mpr ⟨y, hy, hgy⟩)
      · exact Or.inr ⟨q, hq', y, hy, hgy⟩

/-- Any notification of a queue sweep is addressed to one of the
drained entries' endpoints. -/
theorem sweepQ_pushes_from {α : Type} (fire : α → Bool) (note : α → Push)
    (g : α → Nat) (hnote : ∀ x, (note x).ipc = g x) (q : Queue α) :
    ∀ p ∈ (sweepList fire note (Queue.drainList q)).1,
      ∃ x ∈ q.deque, p.ipc = g x := by
  intro p hp
  rw [sweepList_spec] at hp
  obtain ⟨x, hx, rfl⟩ := List.mem_map.mp hp
  exact ⟨x, List.mem_reverse.mp (List.mem_filter.mp hx).1, hnote x⟩

/-- Entries of a rebuilt queue come from the re-inserted list. -/
theorem mem_of_mem_fromDrain {α : Type} {l : List α} {y : α}
    (hy : y ∈ (Queue.fromDrain l).deque) : y ∈ l := by
  rw [Queue.fromDrain, foldl_put_deque] at hy
  simp only [Queue.empty, List.append_nil] at hy
  exact List.mem_reverse.mp hy

/-- Entries held back by a queue sweep come from the original queue. -/
theorem sweepQ_back_sub {α : Type} (fire : α → Bool) (note : α → Push)
    (q : Queue α) :
    ∀ y ∈ (Queue.fromDrain
        (sweepList fire note (Queue.drainList q)).2).deque,
      y ∈ q.deque := by
  intro y hy
  have hy2 := mem_of_mem_fromDrain hy
  rw [sweepList_spec] at hy2
  exact List.mem_reverse.mp (List.mem_filter.mp hy2).1

/-- A registry-wide sweep: pushes come from registered entries, and the
surviving registry only keeps previously registered endpoints. -/
theorem sweepDMap_fresh {κ α : Type}
    (f : κ → Queue α → List Push × Queue α) (g : α → Nat)
    (hp : ∀ k q, ∀ p ∈ (f k q).1, ∃ x ∈ q.deque, p.ipc = g x)
    (hb : ∀ k q, ∀ y ∈ (f k q).2.deque, y ∈ q.deque) :
    ∀ (m : DMap κ (Queue α)) (i : Nat), i ∉ dmapIpcs g m →
      (∀ p ∈ (sweepDMap f m).1, p.ipc ≠ i) ∧
        i ∉ dmapIpcs g (sweepDMap f m).2 := by
  intro m
  induction m with
  | nil =>
    intro i _
    exact ⟨fun p hp => absurd hp (by simp [sweepDMap]), by
      simp [sweepDMap, dmapIpcs]⟩
  | cons p rest ih =>
    intro i him
    have him1 : ∀ y ∈ p.2.deque, g y ≠ i := by
      intro y hy hgy
      exact him ((mem_dmapIpcs g i (p :: rest)).mpr
        ⟨p, List.mem_cons_self _ _, y, hy, hgy⟩)
    have him2 : i ∉ dmapIpcs g rest := by
      intro hmem
      obtain ⟨q, hq, y, hy, hgy⟩ := (mem_dmapIpcs g i rest).mp hmem
      exact him ((mem_dmapIpcs g i (p :: rest)).mpr
        ⟨q, List.mem_cons_of_mem _ hq, y, hy, hgy⟩)
    obtain ⟨ihp, ihb⟩ := ih i him2
    constructor
    · intro pu hpu
      unfold sweepDMap at hpu
      dsimp only at hpu
      rcases List.mem_append.mp hpu with h | h
      · obtain ⟨x, hx, hpx⟩ := hp p.1 p.2 pu h
        rw [hpx]
        exact him1 x hx
      · exact ihp pu h
    · intro hmem
      unfold sweepDMap at hmem
      dsimp only at hmem
      obtain ⟨q, hq, y, hy, hgy⟩ :=
        (mem_dmapIpcs g i ((p.1, (f p.1 p.2).2) :: (sweepDMap f rest).2)).mp
          hmem
      rcases List.mem_cons.mp hq with rfl | hq'
      · exact him1 y (hb p.1 p.2 y hy) hgy
      · exact ihb ((mem_dmapIpcs g i (sweepDMap f rest).2).mpr
          ⟨q, hq', y, hy, hgy⟩)

/-- Condition-sweep pushes come from drained entries, even in a sweep
aborted by a predicate exception. -/
theorem condSweep_pushes_from (st : Dict) :
    ∀ l : List CondEntry, ∀ p ∈ (condSweep st l).1, ∃ x ∈ l, p.ipc = x.1 := by
  intro l
  induction l with
  | nil =>
    intro p hp
    exact absurd hp (by simp [condSweep])
  | cons e rest ih =>
    intro p hp
    rw [condSweep] at hp
    revert hp
    cases he : e.2 st with
    | error ex =>
      dsimp only
      intro hp
      exact absurd hp (by simp)
    | ok b =>
      cases b with
      | true =>
        dsimp only
        intro hp
        rcases List.mem_cons.mp hp with rfl | hp'
        · exact ⟨e, List.mem_cons_self _ _, rfl⟩
        · obtain ⟨x, hx, hgx⟩ := ih p hp'
          exact ⟨x, List.mem_cons_of_mem _ hx, hgx⟩
      | false =>
        dsimp only
        intro hp
        obtain ⟨x, hx, hgx⟩ := ih p hp
        exact ⟨x, List.mem_cons_of_mem _ hx, hgx⟩

/-- Entries surviving a condition sweep come from the drained list. -/
theorem condSweep_back_sub (st : Dict) :
    ∀ (l : List CondEntry) {back : List CondEntry},
      (condSweep st l).2 = Except.ok back → ∀ y ∈ back, y ∈ l := by
  intro l
  induction l with
  | nil =>
    intro back h y hy
    rw [condSweep] at h
    dsimp only at h
    injection h with h2
    subst h2
    cases hy
  | cons e rest ih =>
    intro back h y hy
    rw [condSweep] at h
    revert h
    cases he : e.2 st with
    | error ex =>
      dsimp only
      intro h
      exact absurd h (by simp)
    | ok b =>
      cases b with
      | true =>
        dsimp only
        intro h
        exact List.mem_cons_of_mem _ (ih h y hy)
      | false =>
        dsimp only
        revert hy
        cases hr : (condSweep st rest).2 with
        | error ex =>
          dsimp only
          intro hy h
          exact absurd h (by simp)
        | ok l2 =>
          dsimp only
          intro hy h
          injection h with h2
          subst h2
          rcases List.mem_cons.mp hy with rfl | hy'
          · exact List.mem_cons_self _ _
          · exact List.mem_cons_of_mem _ (ih hr y hy')

/-- Change-sweep pushes come from the queue's entries. -/
theorem changeStep_pushes_from (st : Dict) (ck : CKey)
    (q : Queue (Nat × CBase)) :
    ∀ p ∈ (changeStep st ck q).1, ∃ x ∈ q.deque, p.ipc = x.1 := by
  unfold changeStep
  dsimp only
  exact sweepQ_pushes_from _ _ Prod.fst (fun x => rfl) q

/-- Change-sweep survivors come from the queue's entries. -/
theorem changeStep_back_sub (st : Dict) (ck : CKey)
    (q : Queue (Nat × CBase)) :
    ∀ y ∈ (changeStep st ck q).2.deque, y ∈ q.deque := by
  unfold changeStep
  dsimp only
  exact sweepQ_back_sub _ _ q

/-- Value-change-sweep pushes come from the queue's entries. -/
theorem valStep_pushes_from (st : Dict) (k : String)
    (q : Queue (Nat × Val)) :
    ∀ p ∈ (valStep st k q).1, ∃ x ∈ q.deque, p.ipc = x.1 := by
  unfold valStep
  dsimp only
  exact sweepQ_pushes_from _ _ Prod.fst (fun x => rfl) q

/-- Value-change-sweep survivors come from the queue's entries. -/
theorem valStep_back_sub (st : Dict) (k : String)
    (q : Queue (Nat × Val)) :
    ∀ y ∈ (valStep st k q).2.deque, y ∈ q.deque := by
  unfold valStep
  dsimp only
  exact sweepQ_back_sub _ _ q

/-- The change resolver neither notifies nor newly registers an
endpoint that was not registered in its registry. -/
theorem resolve_change_fresh (s : ZProcServer) (i : Nat)
    (h : i ∉ chIpcs s) :
    (∀ p ∈ s.resolve_change_handlers.pushes, p.ipc ≠ i)
    ∧ i ∉ chIpcs s.resolve_change_handlers.server := by
  unfold chIpcs at h ⊢
  unfold ZProcServer.resolve_change_handlers
  dsimp only
  exact sweepDMap_fresh (changeStep s.state) Prod.fst
    (changeStep_pushes_from s.state) (changeStep_back_sub s.state)
    s.change_handlers i h

/-- The value-change resolver neither notifies nor newly registers a
foreign endpoint. -/
theorem resolve_val_fresh (s : ZProcServer) (i : Nat)
    (h : i ∉ valIpcs s) :
    (∀ p ∈ s.resolve_val_change_handlers.pushes, p.ipc ≠ i)
    ∧ i ∉ valIpcs s.resolve_val_change_handlers.server := by
  unfold valIpcs at h ⊢
  unfold ZProcServer.resolve_val_change_handlers
  dsimp only
  exact sweepDMap_fresh (valStep s.state) Prod.fst
    (valStep_pushes_from s.state) (valStep_back_sub s.state)
    s.val_change_handlers i h

/-- The equals resolver neither notifies nor newly registers a foreign
endpoint. -/
theorem resolve_equals_fresh (s : ZProcServer) (i : Nat)
    (h : i ∉ eqIpcs s) :
    (∀ p ∈ s.resolve_equals_handler.pushes, p.ipc ≠ i)
    ∧ i ∉ eqIpcs s.resolve_equals_handler.server := by
  unfold eqIpcs at h ⊢
  unfold ZProcServer.resolve_equals_handler
  dsimp only
  constructor
  · intro p hp
    obtain ⟨x, hx, hpx⟩ := sweepQ_pushes_from _
      (fun e => ⟨e.2.2, Msg.obj (Res.bool true)⟩) (fun e => e.2.2)
      (fun x => rfl) s.equals_handlers p hp
    rw [hpx]
    intro he
    exact h (List.mem_map.mpr ⟨x, hx, he⟩)
  · intro hmem
    obtain ⟨y, hy, hgy⟩ := List.mem_map.mp hmem
    exact h (List.mem_map.mpr
      ⟨y, sweepQ_back_sub _ _ s.equals_handlers y hy, hgy⟩)

/-- The condition resolver neither notifies nor newly registers a
foreign endpoint (also through an exception-aborted sweep). -/
theorem resolve_condition_fresh (s : ZProcServer) (i : Nat)
    (h : i ∉ condIpcs s) :
    (∀ p ∈ s.resolve_condition_handlers.pushes, p.ipc ≠ i)
    ∧ i ∉ condIpcs s.resolve_condition_handlers.server := by
  unfold condIpcs at h ⊢
  unfold ZProcServer.resolve_condition_handlers
  dsimp only
  constructor
  · intro p hp
    obtain ⟨x, hx, hpx⟩ := condSweep_pushes_from s.state _ p hp
    rw [hpx]
    intro he
    exact h (List.mem_map.mpr ⟨x, List.mem_reverse.mp hx, he⟩)
  · cases hr : (condSweep s.state
        (Queue.drainList s.condition_handlers)).2 with
    | error ex => simp [condQueueAfter, Queue.empty]
    | ok back =>
      intro hmem
      dsimp only [condQueueAfter] at hmem
      obtain ⟨y, hy, hgy⟩ := List.mem_map.mp hmem
      have hyl := condSweep_back_sub s.state _ hr y
        (mem_of_mem_fromDrain hy)
      exact h (List.mem_map.mpr ⟨y, List.mem_reverse.mp hyl, hgy⟩)

/-- The four registry endpoint lists of a server, under membership. -/
theorem mem_allIpcs (s : ZProcServer) (i : Nat) :
    i ∈ s.allIpcs ↔
      i ∈ condIpcs s ∨ i ∈ eqIpcs s ∨ i ∈ valIpcs s ∨ i ∈ chIpcs s := by
  unfold ZProcServer.allIpcs
  simp [List.mem_append, or_assoc]

/-- The full resolver never pushes to, nor newly registers, an endpoint
registered in no queue. -/
theorem resolve_all_fresh (s : ZProcServer) (i : Nat)
    (h : i ∉ s.allIpcs) :
    (∀ p ∈ s.resolve_all_handlers.pushes, p.ipc ≠ i)
    ∧ i ∉ s.resolve_all_handlers.server.allIpcs := by
  have hc : i ∉ condIpcs s := fun hx =>
    h ((mem_allIpcs s i).mpr (Or.inl hx))
  have he : i ∉ eqIpcs s := fun hx =>
    h ((mem_allIpcs s i).mpr (Or.inr (Or.inl hx)))
  have hv : i ∉ valIpcs s := fun hx =>
    h ((mem_allIpcs s i).mpr (Or.inr (Or.inr (Or.inl hx))))
  have hch : i ∉ chIpcs s := fun hx =>
    h ((mem_allIpcs s i).mpr (Or.inr (Or.inr (Or.inr hx))))
  have r1 := resolve_change_fresh s i hch
  have hc1 : i ∉ condIpcs s.resolve_change_handlers.server := by
    unfold condIpcs
    rw [(resolve_change_fields s).2.1]
    exact hc
  have he1 : i ∉ eqIpcs s.resolve_change_handlers.server := by
    unfold eqIpcs
    rw [(resolve_change_fields s).2.2.1]
    exact he
  have hv1 : i ∉ valIpcs s.resolve_change_handlers.server := by
    unfold valIpcs
    rw [(resolve_change_fields s).2.2.2.1]
    exact hv
  have r2 := resolve_condition_fresh s.resolve_change_handlers.server i
    hc1
  have he2 : i ∉ eqIpcs
      s.resolve_change_handlers.server.resolve_condition_handlers.server := by
    unfold eqIpcs
    rw [(resolve_condition_fields _).2.1]
    exact he1
  have hv2 : i ∉ valIpcs
      s.resolve_change_handlers.server.resolve_condition_handlers.server := by
    unfold valIpcs
    rw [(resolve_condition_fields _).2.2.1]
    exact hv1
  have hch2 : i ∉ chIpcs
      s.resolve_change_handlers.server.resolve_condition_handlers.server := by
    unfold chIpcs
    rw [(resolve_condition_fields _).2.2.2.1]
    exact r1.2
  by_cases hb :
      s.resolve_change_handlers.server.resolve_condition_handlers.err.isSome
      = true
  · have hall : s.resolve_all_handlers =
        ⟨s.resolve_change_handlers.server.resolve_condition_handlers.server,
          s.resolve_change_handlers.pushes ++
            s.resolve_change_handlers.server.resolve_condition_handlers.pushes,
          s.resolve_change_handlers.server.resolve_condition_handlers.err⟩ := by
      unfold ZProcServer.resolve_all_handlers
      dsimp only
      rw [if_pos hb]
    rw [hall]
    constructor
    · intro p hp
      rcases List.mem_append.mp hp with hp' | hp'
      · exact r1.1 p hp'
      · exact r2.1 p hp'
    · intro hmem
      rcases (mem_allIpcs _ i).mp hmem with hx | hx | hx | hx
      · exact r2.2 hx
      · exact he2 hx
      · exact hv2 hx
      · exact hch2 hx
  · have hall : s.resolve_all_handlers =
        ⟨s.resolve_change_handlers.server.resolve_condition_handlers.server.resolve_val_change_handlers.server.resolve_equals_handler.server,
          s.resolve_change_handlers.pushes ++
            (s.resolve_change_handlers.server.resolve_condition_handlers.pushes
              ++
              (s.resolve_change_handlers.server.resolve_condition_handlers.server.resolve_val_change_handlers.pushes
                ++
                s.resolve_change_handlers.server.resolve_condition_handlers.server.resolve_val_change_handlers.server.resolve_equals_handler.pushes)),
          Option.none⟩ := by
      unfold ZProcServer.resolve_all_handlers
      dsimp only
      rw [if_neg hb]
    have r3 := resolve_val_fresh
      s.resolve_change_handlers.server.resolve_condition_handlers.server
      i hv2
    have hc3 : i ∉ condIpcs
        s.resolve_change_handlers.server.resolve_condition_handlers.server.resolve_val_change_handlers.server := by
      unfold condIpcs
      rw [(resolve_val_fields _).2.1]
      exact r2.2
    have he3 : i ∉ eqIpcs
        s.resolve_change_handlers.server.resolve_condition_handlers.server.resolve_val_change_handlers.server := by
      unfold eqIpcs
      rw [(resolve_val_fields _).2.2.1]
      exact he2
    have hch3 : i ∉ chIpcs
        s.resolve_change_handlers.server.resolve_condition_handlers.server.resolve_val_change_handlers.server := by
      unfold chIpcs
      rw [(resolve_val_fields _).2.2.2.1]
      exact hch2
    have r4 := resolve_equals_fresh
      s.resolve_change_handlers.server.resolve_condition_handlers.server.resolve_val_change_handlers.server
      i he3
    rw [hall]
    constructor
    · intro p hp
      rcases List.mem_append.mp hp with hp' | hp'
      · exact r1.1 p hp'
      rcases List.mem_append.mp hp' with hp'' | hp''
      · exact r2.1 p hp''
      rcases List.mem_append.mp hp'' with hp3 | hp3
      · exact r3.1 p hp3
      · exact r4.1 p hp3
    · intro hmem
      rcases (mem_allIpcs _ i).mp hmem with hx | hx | hx | hx
      · revert hx
        unfold condIpcs
        rw [(resolve_equals_fields _).2.1]
        exact hc3
      · exact r4.2 hx
      · revert hx
        unfold valIpcs
        rw [(resolve_equals_fields _).2.2.1]
        exact r3.2
      · revert hx
        unfold chIpcs
        rw [(resolve_equals_fields _).2.2.2.1]
        exact hch3

/-- Adding one entry to a registry introduces only that entry's
endpoint. -/
theorem dmapIpcs_modifyD_put {κ α : Type} [DecidableEq κ] (g : α → Nat)
    (m : DMap κ (Queue α)) (ck : κ) (x : α) (i : Nat)
    (him : i ∉ dmapIpcs g m) (hx : g x ≠ i) :
    i ∉ dmapIpcs g
      (DMap.modifyD m ck Queue.empty (fun q => Queue.put q x)) := by
  intro hmem
  obtain ⟨p, hp, y, hy, hgy⟩ := (mem_dmapIpcs g i _).mp hmem
  unfold DMap.modifyD at hp
  by_cases hany : List.any m (fun p => decide (p.1 = ck)) = true
  · rw [if_pos hany] at hp
    obtain ⟨p0, hp0, hmap⟩ := List.mem_map.mp hp
    by_cases hk : p0.1 = ck
    · rw [if_pos hk] at hmap
      subst hmap
      rcases List.mem_cons.mp hy with rfl | hy'
      · exact hx hgy
      · exact him ((mem_dmapIpcs g i m).mpr ⟨p0, hp0, y, hy', hgy⟩)
    · rw [if_neg hk] at hmap
      subst hmap
      exact him ((mem_dmapIpcs g i m).mpr ⟨p0, hp0, y, hy, hgy⟩)
  · rw [if_neg hany] at hp
    rcases List.mem_append.mp hp with hp' | hp'
    · exact him ((mem_dmapIpcs g i m).mpr ⟨p, hp', y, hy, hgy⟩)
    · rcases List.mem_singleton.mp hp' with rfl
      rcases List.mem_cons.mp hy with rfl | hy'
      · exact hx hgy
      · cases hy'

/-- A minted endpoint is distinct from any strictly smaller one. -/
theorem nextIpc_ne {s : ZProcServer} {i : Nat} (hn : i < s.nextIpc) :
    s.nextIpc ≠ i := by
  intro he
  rw [he] at hn
  exact Nat.lt_irrefl i hn

/-- `get_state_callable` keeps a foreign endpoint foreign: the counter
does not shrink, no registry acquires the endpoint, and no push targets
it. -/
theorem gsc_fresh (s : ZProcServer) (ident : Nat) (msg : WireMsg)
    (i : Nat) (hn : i < s.nextIpc) (h : i ∉ s.allIpcs) :
    i < (s.get_state_callable ident msg).server.nextIpc
    ∧ i ∉ (s.get_state_callable ident msg).server.allIpcs
    ∧ ∀ p ∈ (s.get_state_callable ident msg).pushes, p.ipc ≠ i := by
  unfold ZProcServer.get_state_callable
  cases hi : msg.item with
  | none => exact ⟨hn, h, by simp⟩
  | some it =>
    dsimp only
    cases hd : dictCall it msg.args s.state with
    | error ex => exact ⟨hn, h, by simp⟩
    | ok rd =>
      dsimp only
      by_cases hb : (decide (it ∈ ACTIONS_THAT_MUTATE) &&
          !Dict.beq s.state rd.2) = true
      · rw [if_pos hb]
        dsimp only
        have hfr := resolve_all_fresh
          ⟨rd.2, s.condition_handlers, s.equals_handlers,
            s.val_change_handlers, s.change_handlers, s.nextIpc⟩ i h
        refine ⟨?_, hfr.2, hfr.1⟩
        rw [resolve_all_nextIpc]
        exact hn
      · rw [if_neg hb]
        exact ⟨hn, h, by simp⟩

/-- `lock_state` keeps a foreign endpoint foreign. -/
theorem lock_fresh (s : ZProcServer) (ident : Nat) (msg : WireMsg)
    (i : Nat) (hn : i < s.nextIpc) (h : i ∉ s.allIpcs) :
    i < (s.lock_state ident msg).server.nextIpc
    ∧ i ∉ (s.lock_state ident msg).server.allIpcs
    ∧ ∀ p ∈ (s.lock_state ident msg).pushes, p.ipc ≠ i := by
  unfold ZProcServer.lock_state
  dsimp only
  by_cases hq : Dict.beq (msg.lockReturn.getD s.state) s.state = true
  · rw [if_pos hq]
    exact ⟨Nat.lt_succ_of_lt hn, h, by simp⟩
  · rw [if_neg hq]
    dsimp only
    have hfr := resolve_all_fresh
      ⟨msg.lockReturn.getD s.state, s.condition_handlers,
        s.equals_handlers, s.val_change_handlers, s.change_handlers,
        s.nextIpc + 1⟩ i h
    refine ⟨?_, hfr.2, hfr.1⟩
    rw [resolve_all_nextIpc]
    exact Nat.lt_succ_of_lt hn

/-- `add_change_handler` keeps a strictly smaller foreign endpoint
foreign. -/
theorem add_change_fresh (s : ZProcServer) (ident : Nat) (msg : WireMsg)
    (i : Nat) (hn : i < s.nextIpc) (h : i ∉ s.allIpcs) :
    i < (s.add_change_handler ident msg).server.nextIpc
    ∧ i ∉ (s.add_change_handler ident msg).server.allIpcs
    ∧ ∀ p ∈ (s.add_change_handler ident msg).pushes, p.ipc ≠ i := by
  have hc : i ∉ condIpcs s := fun hx =>
    h ((mem_allIpcs s i).mpr (Or.inl hx))
  have he : i ∉ eqIpcs s := fun hx =>
    h ((mem_allIpcs s i).mpr (Or.inr (Or.inl hx)))
  have hv : i ∉ valIpcs s := fun hx =>
    h ((mem_allIpcs s i).mpr (Or.inr (Or.inr (Or.inl hx))))
  have hch : i ∉ chIpcs s := fun hx =>
    h ((mem_allIpcs s i).mpr (Or.inr (Or.inr (Or.inr hx))))
  unfold ZProcServer.add_change_handler
  cases hk : msg.keys with
  | none => exact ⟨Nat.lt_succ_of_lt hn, h, by simp⟩
  | some ks =>
    dsimp only
    by_cases hl : ks.length ≠ 0
    · rw [if_pos hl]
      have hch2 : i ∉ chIpcs
          (⟨s.state, s.condition_handlers, s.equals_handlers,
            s.val_change_handlers,
            DMap.modifyD s.change_handlers (CKey.keys ks) Queue.empty
              (fun q => Queue.put q
                (s.nextIpc, CBase.cmp (getKeysCmp s.state ks))),
            s.nextIpc + 1⟩ : ZProcServer) := by
        unfold chIpcs
        exact dmapIpcs_modifyD_put Prod.fst s.change_handlers _ _ i hch
          (nextIpc_ne hn)
      have hfr := resolve_change_fresh
        ⟨s.state, s.condition_handlers, s.equals_handlers,
          s.val_change_handlers,
          DMap.modifyD s.change_handlers (CKey.keys ks) Queue.empty
            (fun q => Queue.put q
              (s.nextIpc, CBase.cmp (getKeysCmp s.state ks))),
          s.nextIpc + 1⟩ i hch2
      refine ⟨Nat.lt_succ_of_lt hn, ?_, hfr.1⟩
      intro hmem
      rcases (mem_allIpcs _ i).mp hmem with hx | hx | hx | hx
      · revert hx
        unfold condIpcs
        rw [(resolve_change_fields _).2.1]
        exact hc
      · revert hx
        unfold eqIpcs
        rw [(resolve_change_fields _).2.2.1]
        exact he
      · revert hx
        unfold valIpcs
        rw [(resolve_change_fields _).2.2.2.1]
        exact hv
      · exact hfr.2 hx
    · rw [if_neg hl]
      have hch2 : i ∉ chIpcs
          (⟨s.state, s.condition_handlers, s.equals_handlers,
            s.val_change_handlers,
            DMap.modifyD s.change_handlers CKey.any Queue.empty
              (fun q => Queue.put q (s.nextIpc, CBase.snap s.state)),
            s.nextIpc + 1⟩ : ZProcServer) := by
        unfold chIpcs
        exact dmapIpcs_modifyD_put Prod.fst s.change_handlers _ _ i hch
          (nextIpc_ne hn)
      have hfr := resolve_change_fresh
        ⟨s.state, s.condition_handlers, s.equals_handlers,
          s.val_change_handlers,
          DMap.modifyD s.change_handlers CKey.any Queue.empty
            (fun q => Queue.put q (s.nextIpc, CBase.snap s.state)),
          s.nextIpc + 1⟩ i hch2
      refine ⟨Nat.lt_succ_of_lt hn, ?_, hfr.1⟩
      intro hmem
      rcases (mem_allIpcs _ i).mp hmem with hx | hx | hx | hx
      · revert hx
        unfold condIpcs
        rw [(resolve_change_fields _).2.1]
        exact hc
      · revert hx
        unfold eqIpcs
        rw [(resolve_change_fields _).2.2.1]
        exact he
      · revert hx
        unfold valIpcs
        rw [(resolve_change_fields _).2.2.2.1]
        exact hv
      · exact hfr.2 hx

/-- `add_val_change_handler` keeps a strictly smaller foreign endpoint
foreign. -/
theorem add_val_fresh (s : ZProcServer) (ident : Nat) (msg : WireMsg)
    (i : Nat) (hn : i < s.nextIpc) (h : i ∉ s.allIpcs) :
    i < (s.add_val_change_handler ident msg).server.nextIpc
    ∧ i ∉ (s.add_val_change_handler ident msg).server.allIpcs
    ∧ ∀ p ∈ (s.add_val_change_handler ident msg).pushes, p.ipc ≠ i := by
  have hc : i ∉ condIpcs s := fun hx =>
    h ((mem_allIpcs s i).mpr (Or.inl hx))
  have he : i ∉ eqIpcs s := fun hx =>
    h ((mem_allIpcs s i).mpr (Or.inr (Or.inl hx)))
  have hv : i ∉ valIpcs s := fun hx =>
    h ((mem_allIpcs s i).mpr (Or.inr (Or.inr (Or.inl hx))))
  have hch : i ∉ chIpcs s := fun hx =>
    h ((mem_allIpcs s i).mpr (Or.inr (Or.inr (Or.inr hx))))
  unfold ZProcServer.add_val_change_handler
  cases hk : msg.key with
  | none => exact ⟨Nat.lt_succ_of_lt hn, h, by simp⟩
  | some k =>
    dsimp only
    have hv2 : i ∉ valIpcs
        (⟨s.state, s.condition_handlers, s.equals_handlers,
          DMap.modifyD s.val_change_handlers k Queue.empty
            (fun q => Queue.put q
              (s.nextIpc,
                match msg.value with
                | Option.some v => v
                | Option.none => Dict.get s.state k)),
          s.change_handlers, s.nextIpc + 1⟩ : ZProcServer) := by
      unfold valIpcs
      exact dmapIpcs_modifyD_put Prod.fst s.val_change_handlers _ _ i hv
        (nextIpc_ne hn)
    have hfr := resolve_val_fresh
      ⟨s.state, s.condition_handlers, s.equals_handlers,
        DMap.modifyD s.val_change_handlers k Queue.empty
          (fun q => Queue.put q
            (s.nextIpc,
              match msg.value with
              | Option.some v => v
              | Option.none => Dict.get s.state k)),
        s.change_handlers, s.nextIpc + 1⟩ i hv2
    refine ⟨Nat.lt_succ_of_lt hn, ?_, hfr.1⟩
    intro hmem
    rcases (mem_allIpcs _ i).mp hmem with hx | hx | hx | hx
    · revert hx
      unfold condIpcs
      rw [(resolve_val_fields _).2.1]
      exact hc
    · revert hx
      unfold eqIpcs
      rw [(resolve_val_fields _).2.2.1]
      exact he
    · exact hfr.2 hx
    · revert hx
      unfold chIpcs
      rw [(resolve_val_fields _).2.2.2.1]
      exact hch

/-- `add_equals_handler` keeps a strictly smaller foreign endpoint
foreign. -/
theorem add_equals_fresh (s : ZProcServer) (ident : Nat) (msg : WireMsg)
    (i : Nat) (hn : i < s.nextIpc) (h : i ∉ s.allIpcs) :
    i < (s.add_equals_handler ident msg).server.nextIpc
    ∧ i ∉ (s.add_equals_handler ident msg).server.allIpcs
    ∧ ∀ p ∈ (s.add_equals_handler ident msg).pushes, p.ipc ≠ i := by
  have hc : i ∉ condIpcs s := fun hx =>
    h ((mem_allIpcs s i).mpr (Or.inl hx))
  have he : i ∉ eqIpcs s := fun hx =>
    h ((mem_allIpcs s i).mpr (Or.inr (Or.inl hx)))
  have hv : i ∉ valIpcs s := fun hx =>
    h ((mem_allIpcs s i).mpr (Or.inr (Or.inr (Or.inl hx))))
  have hch : i ∉ chIpcs s := fun hx =>
    h ((mem_allIpcs s i).mpr (Or.inr (Or.inr (Or.inr hx))))
  unfold ZProcServer.add_equals_handler
  cases hk : msg.key with
  | none => exact ⟨Nat.lt_succ_of_lt hn, h, by simp⟩
  | some k =>
    dsimp only
    cases hvv : msg.value with
    | none => exact ⟨Nat.lt_succ_of_lt hn, h, by simp⟩
    | some v =>
      dsimp only
      have he2 : i ∉ eqIpcs
          (⟨s.state, s.condition_handlers,
            Queue.put s.equals_handlers (k, v, s.nextIpc),
            s.val_change_handlers, s.change_handlers,
            s.nextIpc + 1⟩ : ZProcServer) := by
        unfold eqIpcs
        intro hmem
        obtain ⟨y, hy, hgy⟩ := List.mem_map.mp hmem
        rcases List.mem_cons.mp hy with rfl | hy'
        · exact nextIpc_ne hn hgy
        · exact he (List.mem_map.mpr ⟨y, hy', hgy⟩)
      have hfr := resolve_equals_fresh
        ⟨s.state, s.condition_handlers,
          Queue.put s.equals_handlers (k, v, s.nextIpc),
          s.val_change_handlers, s.change_handlers, s.nextIpc + 1⟩ i he2
      refine ⟨Nat.lt_succ_of_lt hn, ?_, hfr.1⟩
      intro hmem
      rcases (mem_allIpcs _ i).mp hmem with hx | hx | hx | hx
      · revert hx
        unfold condIpcs
        rw [(resolve_equals_fields _).2.1]
        exact hc
      · exact hfr.2 hx
      · revert hx
        unfold valIpcs
        rw [(resolve_equals_fields _).2.2.1]
        exact hv
      · revert hx
        unfold chIpcs
        rw [(resolve_equals_fields _).2.2.2.1]
        exact hch

/-- `add_condition_handler` keeps a strictly smaller foreign endpoint
foreign. -/
theorem add_condition_fresh (s : ZProcServer) (ident : Nat)
    (msg : WireMsg) (i : Nat) (hn : i < s.nextIpc)
    (h : i ∉ s.allIpcs) :
    i < (s.add_condition_handler ident msg).server.nextIpc
    ∧ i ∉ (s.add_condition_handler ident msg).server.allIpcs
    ∧ ∀ p ∈ (s.add_condition_handler ident msg).pushes, p.ipc ≠ i := by
  have hc : i ∉ condIpcs s := fun hx =>
    h ((mem_allIpcs s i).mpr (Or.inl hx))
  have he : i ∉ eqIpcs s := fun hx =>
    h ((mem_allIpcs s i).mpr (Or.inr (Or.inl hx)))
  have hv : i ∉ valIpcs s := fun hx =>
    h ((mem_allIpcs s i).mpr (Or.inr (Or.inr (Or.inl hx))))
  have hch : i ∉ chIpcs s := fun hx =>
    h ((mem_allIpcs s i).mpr (Or.inr (Or.inr (Or.inr hx))))
  unfold ZProcServer.add_condition_handler
  cases hk : msg.condFn with
  | none => exact ⟨Nat.lt_succ_of_lt hn, h, by simp⟩
  | some f =>
    dsimp only
    have hc2 : i ∉ condIpcs
        (⟨s.state, Queue.put s.condition_handlers (s.nextIpc, f),
          s.equals_handlers, s.val_change_handlers, s.change_handlers,
          s.nextIpc + 1⟩ : ZProcServer) := by
      unfold condIpcs
      intro hmem
      obtain ⟨y, hy, hgy⟩ := List.mem_map.mp hmem
      rcases List.mem_cons.mp hy with rfl | hy'
      · exact nextIpc_ne hn hgy
      · exact hc (List.mem_map.mpr ⟨y, hy', hgy⟩)
    have hfr := resolve_condition_fresh
      ⟨s.state, Queue.put s.condition_handlers (s.nextIpc, f),
        s.equals_handlers, s.val_change_handlers, s.change_handlers,
        s.nextIpc + 1⟩ i hc2
    refine ⟨Nat.lt_succ_of_lt hn, ?_, hfr.1⟩
    intro hmem
    rcases (mem_allIpcs _ i).mp hmem with hx | hx | hx | hx
    · exact hfr.2 hx
    · revert hx
      unfold eqIpcs
      rw [(resolve_condition_fields _).2.1]
      exact he
    · revert hx
      unfold valIpcs
      rw [(resolve_condition_fields _).2.2.1]
      exact hv
    · revert hx
      unfold chIpcs
      rw [(resolve_condition_fields _).2.2.2.1]
      exact hch

/-- Any handler keeps a strictly smaller foreign endpoint foreign. -/
theorem callHandler_fresh (a : String) (s : ZProcServer) (ident : Nat)
    (msg : WireMsg) (i : Nat) (hn : i < s.nextIpc)
    (h : i ∉ s.allIpcs) :
    i < (callHandler a s ident msg).server.nextIpc
    ∧ i ∉ (callHandler a s ident msg).server.allIpcs
    ∧ ∀ p ∈ (callHandler a s ident msg).pushes, p.ipc ≠ i := by
  unfold callHandler
  by_cases h1 : a = "send_state"
  · rw [if_pos h1]
    exact ⟨hn, h, by simp [ZProcServer.send_state]⟩
  rw [if_neg h1]
  by_cases h2 : a = "lock_state"
  · rw [if_pos h2]
    exact lock_fresh s ident msg i hn h
  rw [if_neg h2]
  by_cases h3 : a = "get_state_callable"
  · rw [if_pos h3]
    exact gsc_fresh s ident msg i hn h
  rw [if_neg h3]
  by_cases h4 : a = "get_state_attr"
  · rw [if_pos h4]
    unfold ZProcServer.get_state_attr
    cases hi : msg.item with
    | none => exact ⟨hn, h, by simp⟩
    | some it =>
      dsimp only
      by_cases hd : it ∈ dictAttrNames
      · rw [if_pos hd]
        exact ⟨hn, h, by simp⟩
      · rw [if_neg hd]
        exact ⟨hn, h, by simp⟩
  rw [if_neg h4]
  by_cases h5 : a = "add_change_handler"
  · rw [if_pos h5]
    exact add_change_fresh s ident msg i hn h
  rw [if_neg h5]
  by_cases h6 : a = "add_val_change_handler"
  · rw [if_pos h6]
    exact add_val_fresh s ident msg i hn h
  rw [if_neg h6]
  by_cases h7 : a = "add_equals_handler"
  · rw [if_pos h7]
    exact add_equals_fresh s ident msg i hn h
  rw [if_neg h7]
  exact add_condition_fresh s ident msg i hn h

/-- One main-loop iteration keeps a strictly smaller foreign endpoint
foreign and never pushes to it. -/
theorem step_fresh (s : ZProcServer) (ident : Nat) (msg : WireMsg)
    (i : Nat) (hn : i < s.nextIpc) (h : i ∉ s.allIpcs) :
    i < (state_server_step s ident msg).server.nextIpc
    ∧ i ∉ (state_server_step s ident msg).server.allIpcs
    ∧ ∀ p ∈ (state_server_step s ident msg).pushes, p.ipc ≠ i := by
  unfold state_server_step
  cases ha : msg.action with
  | none => exact ⟨hn, h, by simp⟩
  | some a =>
    dsimp only
    by_cases hmem : a ∈ handlerNames
    · rw [if_pos hmem, wrapOut_server, wrapOut_pushes]
      exact callHandler_fresh a s ident msg i hn h
    · rw [if_neg hmem]
      by_cases hrep : a = "reply"
      · rw [if_pos hrep]
        exact ⟨hn, h, by simp⟩
      · rw [if_neg hrep]
        by_cases hoth : a ∈ otherAttrNames
        · rw [if_pos hoth]
          exact ⟨hn, h, by simp⟩
        · rw [if_neg hoth]
          exact ⟨hn, h, by simp⟩

/-- Across any run of the main loop, an endpoint below the counter and
registered in no queue never receives a push. -/
theorem run_fresh (i : Nat) :
    ∀ (reqs : List (Nat × WireMsg)) (s : ZProcServer),
      i < s.nextIpc → i ∉ s.allIpcs →
      pushesTo i (runSteps s reqs).2 = [] := by
  intro reqs
  induction reqs with
  | nil =>
    intro s _ _
    rfl
  | cons r rest ih =>
    intro s hn h
    obtain ⟨h1, h2, h3⟩ := step_fresh s r.1 r.2 i hn h
    show pushesTo i ((state_server_step s r.1 r.2).pushes ++
      (runSteps (state_server_step s r.1 r.2).server rest).2) = []
    unfold pushesTo
    rw [List.filter_append]
    have e1 : List.filter (fun p => decide (p.ipc = i))
        (state_server_step s r.1 r.2).pushes = [] := by
      rw [List.filter_eq_nil_iff]
      intro p hp
      simp [h3 p hp]
    have e2 := ih (state_server_step s r.1 r.2).server h1 h2
    unfold pushesTo at e2
    rw [e1, e2]
    rfl

/-- Server with an innocent condition watcher (endpoint 6) behind a
raising one (endpoint 5) in drain order. -/
def condServer2 : ZProcServer :=
  ⟨[], ⟨[(6, fun _ => Except.ok false), (5, failPred)]⟩, Queue.empty,
    [], [], 7⟩

/-- Counterexample to C4: watcher 6 is registered (in exactly one
queue); one mutation triggers a sweep in which watcher 5's predicate
raises; afterwards watcher 6 is in no queue at all, yet no notification
was ever pushed to it — it was neither pushed-to nor re-queued. -/
theorem c4_counterexample :
    condServer2.condition_handlers.deque.map Prod.fst = [6, 5]
    ∧ (state_server_step condServer2 0 mutA).server.condition_handlers
        = Queue.empty
    ∧ (state_server_step condServer2 0 mutA).server.equals_handlers
        = Queue.empty
    ∧ (state_server_step condServer2 0 mutA).server.val_change_handlers
        = []
    ∧ (state_server_step condServer2 0 mutA).server.change_handlers = []
    ∧ pushesTo 6 (state_server_step condServer2 0 mutA).pushes = [] := by
  exact ⟨rfl, rfl, rfl, rfl, rfl, rfl⟩

/-- C4 amended: in an error-free sweep every drained entry is either
notified or re-queued (per registry), and once an entry is gone from
every queue — because it was notified, or because an
exception-aborted condition sweep dropped it — no notification is ever
pushed to its endpoint again, over any sequence of requests; a sweep
aborted by a condition-predicate exception empties the condition queue,
dropping its drained-but-unresolved entries without notification. -/
theorem c4_amended_entry_lifecycle :
    (∀ (s : ZProcServer) (i : Nat), i < s.nextIpc → i ∉ s.allIpcs →
      ∀ reqs : List (Nat × WireMsg),
        pushesTo i (runSteps s reqs).2 = [])
    ∧ (∀ s : ZProcServer,
        s.resolve_condition_handlers.err.isSome = true →
        s.resolve_condition_handlers.server.condition_handlers
          = Queue.empty)
    ∧ (∀ (α : Type) (fire : α → Bool) (note : α → Push) (l : List α)
        (x : α), x ∈ l →
        note x ∈ (sweepList fire note l).1 ∨
          x ∈ (sweepList fire note l).2)
    ∧ (∀ (st : Dict) (l back : List CondEntry),
        (condSweep st l).2 = Except.ok back →
        ∀ x ∈ l, x.1 ∈ pushIpcs (condSweep st l).1 ∨ x ∈ back) := by
  refine ⟨?_, ?_, ?_, ?_⟩
  · intro s i hn h reqs
    exact run_fresh i reqs s hn h
  · intro s h
    exact resolve_condition_err_empties s h
  · intro α fire note l x hx
    exact sweepList_mem fire note hx
  · intro st l back h x hx
    exact condSweep_mem_ok st l h hx

/-- Witness for C4's amended statement at concrete servers. -/
theorem c4_witness :
    pushesTo 0 (runSteps (emptyServer [] 1) [(0, mutA)]).2 = []
    ∧ condServerW.resolve_condition_handlers.server.condition_handlers
        = Queue.empty :=
  ⟨c4_amended_entry_lifecycle.1 (emptyServer [] 1) 0 (by decide)
      (by decide) [(0, mutA)],
    c4_amended_entry_lifecycle.2.1 condServerW rfl⟩

end ZProc
